import Mathlib

/-!
Verification of the matchmaking core of the `christmas-metaphor` repository
(`src/matchmaking.ts` and `src/utils/optimalConfigCalculator.ts`).

The TypeScript source is embedded shallowly:

* JavaScript numbers are modelled as `Nat` (all quantities involved are
  non-negative integers) except inside `calculateOptimalConfig`, where the
  constants `0.8` and `0.6` are modelled as exact rationals; on every value
  reached by the program the IEEE double computations of the source agree
  with exact rational arithmetic.
* `Math.random()` is modelled by an arbitrary stream `g : Nat → Nat` of draws;
  the draw used for a bound `b` is `g i % b`, and the position `i` of the next
  draw is threaded through the whole computation exactly as the global
  JavaScript generator is (in particular a failed backtracking branch still
  advances the stream).  Quantifying over all `g` quantifies over every
  possible outcome of the randomization.
* The call-stack recursion of `backtrack` is modelled with an explicit fuel
  parameter counting call depth; `runMatchmaking` runs it with fuel
  `players.length * (N + 1) + 1`, which is proved sufficient
  (`runMatchmaking_fuel_irrelevant`), so the fuel-exhaustion branch is dead
  code and the embedding computes exactly what the unbounded recursion does.
* `console.log` / `console.error` calls are modelled as a list of `LogEvent`
  values returned next to the result.
-/

/-- Type `PlayerData` from `types.ts`, restricted to the fields the matchmaking
core reads (`assignments`/`submissions` are never consulted by the engine). -/
structure PlayerData where
  name : String
  preferences : List String
  avoids : List String
deriving DecidableEq

/-- Type `Player` from `types.ts`. -/
structure Player where
  uid : String
  data : PlayerData
deriving DecidableEq

/-- Type `Assignment` from `types.ts`. -/
structure Assignment where
  writerId : String
  targetId : String
deriving DecidableEq

/-- The expression `players.map(p => p.uid)` — the `originalPlayerIds` array of
`runMatchmaking`. -/
def playerIds (players : List Player) : List String :=
  players.map (fun p => p.uid)

instance : Inhabited PlayerData := ⟨⟨"", [], []⟩⟩

instance : Inhabited Player := ⟨⟨"", default⟩⟩

/-- Lookup `playerMap.get(uid)!` where `playerMap = new Map(players.map(p => [p.uid, p]))`.
Successive `Map` insertions overwrite, so the last player with a given uid
wins; hence the lookup searches the reversed list. -/
def playerMapGet (players : List Player) (uid : String) : Player :=
  (players.reverse.find? (fun p => p.uid == uid)).getD default

/-- Count `players.filter(p => p.uid !== player.uid && !player.data.avoids.includes(p.uid)).length`:
how many valid candidates `player` has as a writer. -/
def validCandidateCount (players : List Player) (player : Player) : Nat :=
  (players.filter (fun p =>
    !(p.uid == player.uid) && !(player.data.avoids.contains p.uid))).length

/-- Count `players.filter(p => p.uid !== targetPlayer.uid && !p.data.avoids.includes(targetPlayer.uid)).length`:
how many other players can write about `targetPlayer`. -/
def canWriteCount (players : List Player) (targetPlayer : Player) : Nat :=
  (players.filter (fun p =>
    !(p.uid == targetPlayer.uid) && !(p.data.avoids.contains targetPlayer.uid))).length

/-- Swap `[shuffled[i], shuffled[j]] = [shuffled[j], shuffled[i]]`. -/
def listSwap {α : Type} (l : List α) (i j : Nat) : List α :=
  match l[i]?, l[j]? with
  | some a, some b => (l.set i b).set j a
  | _, _ => l

/-- The Fisher–Yates loop of `shuffle`: `for (i = len-1; i > 0; i--)`.
The first argument is the current index `i`; `r` is the position of the next
random draw in the stream `g`. -/
def shuffleAux {α : Type} (g : Nat → Nat) : Nat → List α → Nat → List α × Nat
  | 0, l, r => (l, r)
  | i + 1, l, r => shuffleAux g i (listSwap l (i + 1) (g r % (i + 2))) (r + 1)

/-- Function `shuffle` from `runMatchmaking` (Fisher–Yates over a copy of the array). -/
def shuffle {α : Type} (g : Nat → Nat) (l : List α) (r : Nat) : List α × Nat :=
  shuffleAux g (l.length - 1) l r

/-- The mutable state of one matchmaking attempt: the `assignments` map
(writer uid → list of target uids), the `targetCounts` map, and the position
of the next random draw. -/
structure St where
  asg : String → List String
  tc : String → Nat
  rng : Nat

/-- Update `currentAssignments.push(targetId); targetCounts.set(targetId, ... + 1)`. -/
def St.assign (st : St) (writerId targetId : String) : St :=
  { asg := fun u => if u = writerId then st.asg writerId ++ [targetId] else st.asg u
    tc := fun u => if u = targetId then st.tc targetId + 1 else st.tc u
    rng := st.rng }

/-- Function `getValidCandidates` from `runMatchmaking`: all ids that are not the
writer, not in the avoids list of the writer, not already assigned to this writer and
not at target capacity; preferred candidates first, each group shuffled. -/
def getValidCandidates (players : List Player) (N : Nat) (g : Nat → Nat)
    (writerId : String) (st : St) : List String × Nat :=
  let writer := playerMapGet players writerId
  let currentAssignments := st.asg writerId
  let valid := (playerIds players).filter (fun targetId =>
    !(targetId == writerId) && !(writer.data.avoids.contains targetId) &&
    !(currentAssignments.contains targetId) && decide (st.tc targetId < N))
  let prefs := valid.filter (fun id => writer.data.preferences.contains id)
  let neutral := valid.filter (fun id => !(writer.data.preferences.contains id))
  let sp := shuffle g prefs st.rng
  let sn := shuffle g neutral sp.2
  (sp.1 ++ sn.1, sn.2)

/-- Result of one (sub)call of the backtracking recursion: success carries the
final state, failure carries the advanced random-stream position. -/
inductive BtRes where
  | success (st : St)
  | failure (rng : Nat)

/-- The `for (const targetId of candidates)` loop of `backtrack`: try each
candidate in order, threading the random-stream position through failed
branches; `none` propagates fuel exhaustion. -/
def tryCandidates (f : String → Nat → Option BtRes) :
    List String → Nat → Option BtRes
  | [], r => some (.failure r)
  | t :: rest, r =>
    match f t r with
    | none => none
    | some (.success st) => some (.success st)
    | some (.failure r2) => tryCandidates f rest r2

/-- Function `backtrack(writerIndex)` from `runMatchmaking`, with an explicit fuel
counting call depth (`none` = fuel exhausted, which
`runMatchmaking_fuel_irrelevant` proves unreachable for the fuel used). -/
def backtrack (players : List Player) (N : Nat) (g : Nat → Nat)
    (shuffledPlayerIds : List String) :
    Nat → Nat → St → Option BtRes
  | 0, _, _ => none
  | fuel + 1, writerIndex, st =>
    if shuffledPlayerIds.length ≤ writerIndex then
      some (.success st)
    else
      let writerId := shuffledPlayerIds.getD writerIndex ""
      if N ≤ (st.asg writerId).length then
        backtrack players N g shuffledPlayerIds fuel (writerIndex + 1) st
      else
        let cr := getValidCandidates players N g writerId st
        tryCandidates
          (fun targetId r =>
            backtrack players N g shuffledPlayerIds fuel writerIndex
              (St.assign { st with rng := r } writerId targetId))
          cr.1 cr.2

/-- Conversion of the `assignments` map into the output edge list
(`for (const [writerId, targetIds] of assignments.entries())`, in the
insertion order `originalPlayerIds`). -/
def extractAssignments (players : List Player) (st : St) : List Assignment :=
  (playerIds players).flatMap (fun writerId =>
    (st.asg writerId).map (fun targetId => ⟨writerId, targetId⟩))

/-- The `for (attempt = 0; attempt < maxAttempts; attempt++)` loop, counting
the remaining attempts down; `r` is the random-stream position. -/
def attemptLoop (players : List Player) (N : Nat) (g : Nat → Nat) (fuel : Nat) :
    Nat → Nat → Option (List Assignment)
  | 0, _ => none
  | attempts + 1, r =>
    let sres := shuffle g (playerIds players) r
    let st0 : St := ⟨fun _ => [], fun _ => 0, sres.2⟩
    match backtrack players N g sres.1 fuel 0 st0 with
    | some (.success st) => some (extractAssignments players st)
    | some (.failure r2) => attemptLoop players N g fuel attempts r2
    | none => none

/-- The `console.log` / `console.error` calls of `runMatchmaking`, as typed
events. -/
inductive LogEvent where
  | started (playerCount targetsPerPlayer : Nat)
  | errNotEnoughPlayers
  | errInvalidN
  | errWriterStarved (name uid : String) (validCount : Nat)
  | errTargetStarved (name uid : String) (avoidedBy canReceive : Nat)
  | success (result : List Assignment)
  | errNoSolution (attempts : Nat)
deriving DecidableEq

/-- Function `runMatchmaking` with the backtracking fuel exposed; the result is the
returned value (`Assignment[] | null`) paired with the console output. -/
def runMatchmakingWith (fuel : Nat) (players : List Player) (N : Nat)
    (g : Nat → Nat) : Option (List Assignment) × List LogEvent :=
  let log0 := [LogEvent.started players.length N]
  if players.length < 2 then
    (none, log0 ++ [.errNotEnoughPlayers])
  else if N < 1 then
    (none, log0 ++ [.errInvalidN])
  else
    match players.find? (fun p => decide (validCandidateCount players p < N)) with
    | some p =>
      (none, log0 ++ [.errWriterStarved p.data.name p.uid (validCandidateCount players p)])
    | none =>
      match players.find? (fun t => decide (canWriteCount players t < N)) with
      | some t =>
        (none, log0 ++ [.errTargetStarved t.data.name t.uid
          (players.length - 1 - canWriteCount players t) (canWriteCount players t)])
      | none =>
        match attemptLoop players N g fuel 100 0 with
        | some result => (some result, log0 ++ [.success result])
        | none => (none, log0 ++ [.errNoSolution 100])

/-- Function `runMatchmaking(players, N)` from `matchmaking.ts`; the fuel
`players.length * (N + 1) + 1` bounds the call depth of `backtrack` and is
proved sufficient. -/
def runMatchmaking (players : List Player) (N : Nat) (g : Nat → Nat) :
    Option (List Assignment) × List LogEvent :=
  runMatchmakingWith (players.length * (N + 1) + 1) players N g

/-- The two suggestion kinds of `ConflictAnalysis`. -/
inductive SuggestionAction where
  | remove_avoid
  | add_preference
deriving DecidableEq

/-- One entry of `ConflictAnalysis.suggestions`. -/
structure Suggestion where
  playerName : String
  action : SuggestionAction
  targetPlayerName : String
  reason : String
deriving DecidableEq

/-- Type `ConflictAnalysis` from `matchmaking.ts`. -/
structure ConflictAnalysis where
  hasConflict : Bool
  suggestions : List Suggestion
  summary : String
deriving DecidableEq

/-- The ascending comparison used by the analyzer sort call
`sort((a, b) => a.data.avoids.length - b.data.avoids.length)`; the JavaScript
`Array.prototype.sort` is stable, as is `List.insertionSort` with `≤`. -/
def byFewerAvoids (a b : Player) : Prop :=
  a.data.avoids.length ≤ b.data.avoids.length

instance : DecidableRel byFewerAvoids := fun a b =>
  inferInstanceAs (Decidable (a.data.avoids.length ≤ b.data.avoids.length))

/-- Function `analyzeMatchmakingConflict(players, N)` from `matchmaking.ts`: the
target-starvation pass, writer-starvation pass and near-boundary pass, their
suggestions concatenated in that order. -/
def analyzeMatchmakingConflict (players : List Player) (N : Nat) : ConflictAnalysis :=
  let pass1 := players.flatMap (fun targetPlayer =>
    let playersWhoCanWriteAboutTarget := players.filter (fun p =>
      !(p.uid == targetPlayer.uid) && !(p.data.avoids.contains targetPlayer.uid))
    let shortfall := N - playersWhoCanWriteAboutTarget.length
    if 0 < shortfall then
      let playersAvoidingTarget := players.filter (fun p =>
        !(p.uid == targetPlayer.uid) && p.data.avoids.contains targetPlayer.uid)
      let sortedAvoiders := playersAvoidingTarget.insertionSort byFewerAvoids
      (sortedAvoiders.take (min shortfall sortedAvoiders.length)).map (fun writerPlayer =>
        let na := playersAvoidingTarget.length
        let nc := playersWhoCanWriteAboutTarget.length
        { playerName := writerPlayer.data.name
          action := .remove_avoid
          targetPlayerName := targetPlayer.data.name
          reason := targetPlayer.data.name ++ " is avoided by " ++ toString na ++
            " player(s) and can only receive " ++ toString nc ++
            " assignment(s) but needs " ++ toString N ++ ". " ++
            writerPlayer.data.name ++ " should remove their avoid for " ++
            targetPlayer.data.name ++ "." })
    else [])
  let pass2 := players.flatMap (fun player =>
    let validCandidates := players.filter (fun p =>
      !(p.uid == player.uid) && !(player.data.avoids.contains p.uid))
    let shortfall := N - validCandidates.length
    if 0 < shortfall then
      let avoidedPlayers := players.filter (fun p =>
        !(p.uid == player.uid) && player.data.avoids.contains p.uid)
      let sortedAvoids := avoidedPlayers.insertionSort byFewerAvoids
      (sortedAvoids.take (min shortfall sortedAvoids.length)).map (fun targetPlayer =>
        let nv := validCandidates.length
        { playerName := player.data.name
          action := .remove_avoid
          targetPlayerName := targetPlayer.data.name
          reason := player.data.name ++ " has only " ++ toString nv ++
            " valid candidates but needs " ++ toString N ++ ". Removing avoid for " ++
            targetPlayer.data.name ++ " would help." })
    else [])
  let pass3 := players.flatMap (fun player =>
    let validCandidates := players.filter (fun p =>
      !(p.uid == player.uid) && !(player.data.avoids.contains p.uid))
    if validCandidates.length == N then
      let neutralPlayers := validCandidates.filter (fun candidate =>
        !(player.data.preferences.contains candidate.uid))
      match neutralPlayers with
      | [] => []
      | targetPlayer :: _ =>
        [{ playerName := player.data.name
           action := .add_preference
           targetPlayerName := targetPlayer.data.name
           reason := player.data.name ++ " has exactly " ++ toString N ++
             " valid candidates. Adding " ++ targetPlayer.data.name ++
             " to preferences could help with matching." }]
    else [])
  let suggestions := pass1 ++ pass2 ++ pass3
  let summary :=
    if suggestions.length == 0 then
      "No obvious conflicts detected. The issue might be due to complex constraint interactions. Try lowering N or having players adjust their preferences."
    else
      let removeAvoidCount := (suggestions.filter
        (fun s => s.action == SuggestionAction.remove_avoid)).length
      let addPrefCount := (suggestions.filter
        (fun s => s.action == SuggestionAction.add_preference)).length
      "Found " ++ toString suggestions.length ++ " suggestion(s): " ++
        toString removeAvoidCount ++ " remove avoid(s), " ++
        toString addPrefCount ++ " add preference(s)."
  { hasConflict := decide (0 < suggestions.length)
    suggestions := suggestions
    summary := summary }

/-- Type `OptimalConfig` from `optimalConfigCalculator.ts`. -/
structure OptimalConfig where
  maxPreferences : Nat
  maxAvoids : Nat
  reasoning : List String
deriving DecidableEq

/-- Function `calculateOptimalConfig(playerCount, targetsPerPlayer)` from
`optimalConfigCalculator.ts`.  `Math.max(0, …)` is truncated `Nat`
subtraction; `Math.floor(x * 0.8)` and `Math.ceil(x * 0.6)` are computed in
exact rational arithmetic, with which the double arithmetic of the source agrees
on all values reached. -/
def calculateOptimalConfig (playerCount targetsPerPlayer : Nat) : OptimalConfig :=
  if playerCount < 2 then
    ⟨0, 0, ["Need at least 2 players"]⟩
  else if targetsPerPlayer < 1 then
    ⟨0, 0, ["Targets per player must be at least 1"]⟩
  else
    let maxPossibleAvoids : Nat := playerCount - 1 - targetsPerPlayer
    let safeMaxAvoids : Nat := (⌊(maxPossibleAvoids : ℚ) * 0.8⌋).toNat
    let otherPlayersCount : Nat := playerCount - 1
    let suggestedMaxPreferences : Nat :=
      min (⌈(otherPlayersCount : ℚ) * 0.6⌉).toNat otherPlayersCount
    if playerCount == 2 then
      ⟨1, 0,
        ["With only 2 players, each must write about the other.",
         "Max avoids: 0 (cannot avoid the only other player)",
         "Max preferences: 1 (can prefer the other player)"]⟩
    else if maxPossibleAvoids == 0 then
      ⟨suggestedMaxPreferences, 0,
        ["With " ++ toString playerCount ++ " players and " ++
           toString targetsPerPlayer ++ " targets per player,",
         "players cannot avoid anyone (would leave insufficient candidates).",
         "Suggested max preferences: " ++ toString suggestedMaxPreferences]⟩
    else
      ⟨suggestedMaxPreferences, safeMaxAvoids,
        ["With " ++ toString playerCount ++ " players, each player needs at least " ++
           toString targetsPerPlayer ++ " valid candidates.",
         "Maximum possible avoids per player: " ++ toString maxPossibleAvoids ++
           " (to ensure " ++ toString targetsPerPlayer ++ " valid candidates remain).",
         "Suggested max preferences: " ++ toString suggestedMaxPreferences ++
           " (about 60% of other players for good matching flexibility).",
         "Suggested max avoids: " ++ toString safeMaxAvoids ++
           " (80% of maximum to leave safety margin for matchmaking)."]⟩

/-- The output invariants of §3 of the specification: every participant is a
writer exactly `N` times and a target exactly `N` times, no self-assignment,
no duplicate edge, edges connect participants only, and no edge violates the
exclusion set of its writer. -/
def ValidAssignment (players : List Player) (N : Nat) (asgs : List Assignment) : Prop :=
  (∀ p ∈ players, asgs.countP (fun a => a.writerId == p.uid) = N) ∧
  (∀ p ∈ players, asgs.countP (fun a => a.targetId == p.uid) = N) ∧
  (∀ a ∈ asgs, a.writerId ≠ a.targetId) ∧
  asgs.Nodup ∧
  (∀ a ∈ asgs, a.writerId ∈ playerIds players ∧ a.targetId ∈ playerIds players) ∧
  (∀ a ∈ asgs, ∀ p ∈ players, p.uid = a.writerId → a.targetId ∉ p.data.avoids)

instance (players : List Player) (N : Nat) (asgs : List Assignment) :
    Decidable (ValidAssignment players N asgs) := by
  unfold ValidAssignment; infer_instance

/-- An instance is feasible when some assignment set satisfies the output
invariants. -/
def Feasible (players : List Player) (N : Nat) : Prop :=
  ∃ asgs : List Assignment, ValidAssignment players N asgs

/-- Removing one entry (`erase`) from the avoids list of a player. -/
def eraseAvoid (x : String) (p : Player) : Player :=
  { p with data := { p.data with avoids := p.data.avoids.erase x } }

/-- Adding one entry to the avoids list of a player. -/
def addAvoid (x : String) (p : Player) : Player :=
  { p with data := { p.data with avoids := x :: p.data.avoids } }

/-- Applying `f` to the `i`-th element of a list. -/
def modifyAt {α : Type} (f : α → α) : List α → Nat → List α
  | [], _ => []
  | a :: l, 0 => f a :: l
  | a :: l, n + 1 => a :: modifyAt f l n

/-- The `(playerName, action, targetPlayerName)` content of a suggestion. -/
def suggestionTriple (s : Suggestion) : String × SuggestionAction × String :=
  (s.playerName, s.action, s.targetPlayerName)

/-- Modelled from the spec: the description of the target-starvation
pass: for each participant `T` that fewer than `N` others can write about,
up to `shortfall` `remove_avoid` suggestions naming participants who avoid
`T`, taken in ascending order of the size of their own avoids list. -/
def specTargetStarvedPass (players : List Player) (N : Nat) :
    List (String × SuggestionAction × String) :=
  players.flatMap (fun T =>
    let nonExcluders := players.filter (fun p =>
      decide (p.uid ≠ T.uid ∧ T.uid ∉ p.data.avoids))
    if nonExcluders.length < N then
      let excluders := players.filter (fun p =>
        decide (p.uid ≠ T.uid ∧ T.uid ∈ p.data.avoids))
      ((excluders.insertionSort byFewerAvoids).take (N - nonExcluders.length)).map
        (fun w => (w.data.name, SuggestionAction.remove_avoid, T.data.name))
    else [])

/-- Modelled from the spec: the description of the writer-starvation
pass: for each participant `W` with fewer than `N` valid candidates, up to
`shortfall` `remove_avoid` suggestions naming participants `W` avoids, taken
in ascending order of the size of their own avoids list. -/
def specWriterStarvedPass (players : List Player) (N : Nat) :
    List (String × SuggestionAction × String) :=
  players.flatMap (fun W =>
    let valid := players.filter (fun p =>
      decide (p.uid ≠ W.uid ∧ p.uid ∉ W.data.avoids))
    if valid.length < N then
      let avoided := players.filter (fun p =>
        decide (p.uid ≠ W.uid ∧ p.uid ∈ W.data.avoids))
      ((avoided.insertionSort byFewerAvoids).take (N - valid.length)).map
        (fun t => (W.data.name, SuggestionAction.remove_avoid, t.data.name))
    else [])

/-- Modelled from the spec: the description of the near-boundary pass:
for each participant with exactly `N` valid candidates, one `add_preference`
suggestion naming a valid not-yet-preferred candidate (the first one). -/
def specNearBoundaryPass (players : List Player) (N : Nat) :
    List (String × SuggestionAction × String) :=
  players.flatMap (fun P =>
    let valid := players.filter (fun p =>
      decide (p.uid ≠ P.uid ∧ p.uid ∉ P.data.avoids))
    if valid.length = N then
      match valid.filter (fun c => decide (c.uid ∉ P.data.preferences)) with
      | [] => []
      | c :: _ => [(P.data.name, SuggestionAction.add_preference, c.data.name)]
    else [])

/-- The invariant maintained by every state the backtracking search reaches:
assignment lists only exist for participants, contain distinct valid targets
(never the writer itself, never an avoided id), never exceed `N`, and the
`targetCounts` map agrees with the assignment map and never exceeds `N`. -/
structure StInv (players : List Player) (N : Nat) (st : St) : Prop where
  alien : ∀ w, w ∉ playerIds players → st.asg w = []
  nodupAsg : ∀ w, (st.asg w).Nodup
  memAsg : ∀ w t, t ∈ st.asg w →
    t ∈ playerIds players ∧ t ≠ w ∧ t ∉ (playerMapGet players w).data.avoids
  lenLe : ∀ w, (st.asg w).length ≤ N
  tcEq : ∀ t, st.tc t = ((playerIds players).map (fun w => (st.asg w).count t)).sum
  tcLe : ∀ t, st.tc t ≤ N

/-- A fixed outcome stream for the randomization, used in witnesses. -/
def g0 : Nat → Nat := fun _ => 0

/-- Concrete players used in witnesses and counterexamples. -/
def exA : Player := ⟨"a", ⟨"A", [], []⟩⟩

def exB : Player := ⟨"b", ⟨"B", [], []⟩⟩

/-- Termination measure of `backtrack`: each recursive call either advances
the writer index or lengthens the assignment list of the current writer (bounded
by `N`), so this quantity strictly decreases. -/
def btMeasure (sh : List String) (N wi : Nat) (st : St) : Nat :=
  (sh.length - wi) * (N + 1) - min ((st.asg (sh.getD wi "")).length) N

/-- Concrete starved instance: `A` avoids both other players. -/
def exA3 : Player := ⟨"a", ⟨"A", [], ["b", "c"]⟩⟩

def exC : Player := ⟨"c", ⟨"C", [], []⟩⟩

/-- The pointwise relation under which feasibility is monotone: same uid,
and the avoids list of the right player is contained in that of the left. -/
def AvoidsRefines (p q : Player) : Prop :=
  p.uid = q.uid ∧ ∀ t, t ∈ q.data.avoids → t ∈ p.data.avoids

/-- Feasible 3-player instance in which `A` avoids `B`. -/
def exAv : Player := ⟨"a", ⟨"A", [], ["b"]⟩⟩

/-- A validator-passing yet infeasible roster: writers `A`, `B`, `C` may only
target `D` and `E`, so with `N = 1` a Hall-type counting argument rules out
any valid assignment, although every degree bound holds with slack. -/
def hallA : Player := ⟨"a", ⟨"A", [], ["b", "c"]⟩⟩

def hallB : Player := ⟨"b", ⟨"B", [], ["a", "c"]⟩⟩

def hallC : Player := ⟨"c", ⟨"C", [], ["a", "b"]⟩⟩

def hallD : Player := ⟨"d", ⟨"D", [], []⟩⟩

def hallE : Player := ⟨"e", ⟨"E", [], []⟩⟩

def hallPlayers : List Player := [hallA, hallB, hallC, hallD, hallE]

theorem listSwap_cons_perm {α : Type} :
    ∀ (xs : List α) (m : Nat) (x b : α), xs[m]? = some b →
      (b :: xs.set m x).Perm (x :: xs) := by
  intro xs
  induction xs with
  | nil => intro m x b h; simp at h
  | cons y ys ih =>
    intro m x b h
    cases m with
    | zero =>
      simp at h
      subst h
      simp only [List.set_cons_zero]
      exact List.Perm.swap x y ys
    | succ k =>
      simp at h
      refine (List.Perm.swap y b (ys.set k x)).trans ?_
      exact ((ih k x b h).cons y).trans (List.Perm.swap x y ys)

theorem listSwap_perm {α : Type} : ∀ (l : List α) (i j : Nat), (listSwap l i j).Perm l := by
  intro l
  induction l with
  | nil => intro i j; unfold listSwap; simp
  | cons x xs ih =>
    intro i j
    unfold listSwap
    cases i with
    | zero =>
      cases j with
      | zero => simp
      | succ m =>
        simp only [List.getElem?_cons_zero, List.getElem?_cons_succ]
        cases hb : xs[m]? with
        | none => exact List.Perm.refl _
        | some b =>
          simp only [List.set_cons_zero, List.set_cons_succ]
          exact listSwap_cons_perm xs m x b hb
    | succ n =>
      cases j with
      | zero =>
        simp only [List.getElem?_cons_zero, List.getElem?_cons_succ]
        cases ha : xs[n]? with
        | none => exact List.Perm.refl _
        | some a =>
          simp only [List.set_cons_succ, List.set_cons_zero]
          exact listSwap_cons_perm xs n x a ha
      | succ m =>
        simp only [List.getElem?_cons_succ]
        cases ha : xs[n]? with
        | none => exact List.Perm.refl _
        | some a =>
          cases hb : xs[m]? with
          | none => exact List.Perm.refl _
          | some b =>
            simp only [List.set_cons_succ]
            have := ih n m
            unfold listSwap at this
            rw [ha, hb] at this
            exact this.cons x

theorem shuffleAux_perm {α : Type} (g : Nat → Nat) :
    ∀ (i : Nat) (l : List α) (r : Nat), ((shuffleAux g i l r).1).Perm l := by
  intro i
  induction i with
  | zero => intro l r; exact List.Perm.refl _
  | succ k ih =>
    intro l r
    exact (ih _ _).trans (listSwap_perm l (k + 1) (g r % (k + 2)))

theorem shuffle_perm {α : Type} (g : Nat → Nat) (l : List α) (r : Nat) :
    ((shuffle g l r).1).Perm l :=
  shuffleAux_perm g (l.length - 1) l r

theorem shuffle_mem {α : Type} [DecidableEq α] {g : Nat → Nat} {l : List α} {r : Nat}
    {x : α} : x ∈ (shuffle g l r).1 ↔ x ∈ l :=
  (shuffle_perm g l r).mem_iff

theorem shuffle_short {α : Type} (g : Nat → Nat) (l : List α) (r : Nat)
    (h : l.length ≤ 1) : shuffle g l r = (l, r) := by
  have h0 : l.length - 1 = 0 := by omega
  rw [shuffle, h0]
  rfl

theorem find?_uid_of_nodup :
    ∀ (l : List Player), (l.map (fun p => p.uid)).Nodup →
      ∀ p ∈ l, l.find? (fun q => q.uid == p.uid) = some p := by
  intro l
  induction l with
  | nil => intro _ p hp; simp at hp
  | cons q l ih =>
    intro hnd p hp
    simp only [List.map_cons, List.nodup_cons] at hnd
    rcases List.mem_cons.mp hp with rfl | hpl
    · simp [List.find?_cons]
    · have hne : (q.uid == p.uid) = false := by
        refine beq_eq_false_iff_ne.mpr ?_
        intro hEq
        exact hnd.1 (hEq ▸ List.mem_map_of_mem (fun r => r.uid) hpl)
      rw [List.find?_cons, hne]
      exact ih hnd.2 p hpl

theorem playerMapGet_eq {players : List Player} (hnd : (playerIds players).Nodup)
    {p : Player} (hp : p ∈ players) : playerMapGet players p.uid = p := by
  unfold playerMapGet
  have hnd2 : (players.reverse.map (fun q => q.uid)).Nodup := by
    rw [List.map_reverse]
    exact List.nodup_reverse.mpr hnd
  rw [find?_uid_of_nodup players.reverse hnd2 p (List.mem_reverse.mpr hp)]
  rfl

theorem sum_map_add {α : Type} (f h : α → Nat) :
    ∀ l : List α, (l.map (fun a => f a + h a)).sum = (l.map f).sum + (l.map h).sum := by
  intro l
  induction l with
  | nil => rfl
  | cons a l ih => simp [ih]; omega

theorem sum_map_ite_eq :
    ∀ (l : List String), l.Nodup → ∀ (x : String), x ∈ l → ∀ (F : String → Nat),
      (l.map (fun u => if u = x then F u else 0)).sum = F x := by
  intro l
  induction l with
  | nil => intro _ x hx; simp at hx
  | cons y ys ih =>
    intro hnd x hx F
    rw [List.nodup_cons] at hnd
    rcases List.mem_cons.mp hx with rfl | hxs
    · have hz : (ys.map (fun u => if u = x then F u else 0)).sum = 0 := by
        apply List.sum_eq_zero
        intro v hv
        rcases List.mem_map.mp hv with ⟨u, hu, rfl⟩
        have : u ≠ x := fun hux => hnd.1 (hux ▸ hu)
        simp [this]
      simp [hz]
    · have hyx : y ≠ x := fun h => hnd.1 (h ▸ hxs)
      simp only [List.map_cons, List.sum_cons]
      rw [if_neg hyx, ih hnd.2 x hxs F]
      simp

theorem sum_le_length_mul :
    ∀ (l : List Nat) (N : Nat), (∀ x ∈ l, x ≤ N) → l.sum ≤ l.length * N := by
  intro l
  induction l with
  | nil => intro N _; simp
  | cons a l ih =>
    intro N hb
    have h1 : a ≤ N := hb a (List.mem_cons_self a l)
    have h2 := ih N (fun x hx => hb x (List.mem_cons_of_mem a hx))
    simp only [List.sum_cons, List.length_cons]
    calc a + l.sum ≤ N + l.length * N := by omega
      _ = (l.length + 1) * N := by ring

theorem pigeonhole_list :
    ∀ (l : List Nat) (N : Nat), (∀ x ∈ l, x ≤ N) → l.sum = l.length * N →
      ∀ x ∈ l, x = N := by
  intro l
  induction l with
  | nil => intro N _ _ x hx; simp at hx
  | cons a l ih =>
    intro N hb hsum x hx
    have h1 : a ≤ N := hb a (List.mem_cons_self a l)
    have h2 : l.sum ≤ l.length * N :=
      sum_le_length_mul l N (fun y hy => hb y (List.mem_cons_of_mem a hy))
    simp only [List.sum_cons, List.length_cons] at hsum
    have hlen : (l.length + 1) * N = l.length * N + N := by ring
    rw [hlen] at hsum
    have ha : a = N := by omega
    have hrest : l.sum = l.length * N := by omega
    rcases List.mem_cons.mp hx with rfl | hxl
    · exact ha
    · exact ih N (fun y hy => hb y (List.mem_cons_of_mem a hy)) hrest x hxl

theorem count_sum_eq_length {S : List String} (hnd : S.Nodup) :
    ∀ (l : List String), (∀ x ∈ l, x ∈ S) →
      (S.map (fun u => l.count u)).sum = l.length := by
  intro l
  induction l with
  | nil => intro _; simp
  | cons x l ih =>
    intro hsub
    have hx : x ∈ S := hsub x (List.mem_cons_self x l)
    have hcongr : S.map (fun u => (x :: l).count u) =
        S.map (fun u => l.count u + if u = x then 1 else 0) := by
      apply List.map_congr_left
      intro u _
      rw [List.count_cons]
      congr 1
      by_cases h : u = x
      · simp [h]
      · have hb : (x == u) = false := beq_eq_false_iff_ne.mpr (Ne.symm h)
        simp [hb, h]
    rw [hcongr, sum_map_add (fun u => l.count u) (fun u => if u = x then 1 else 0) S]
    rw [ih (fun y hy => hsub y (List.mem_cons_of_mem x hy))]
    rw [sum_map_ite_eq S hnd x hx (fun _ => 1)]
    simp

theorem StInv.init (players : List Player) (N : Nat) (r : Nat) :
    StInv players N ⟨fun _ => [], fun _ => 0, r⟩ := by
  refine ⟨fun _ _ => rfl, fun _ => List.nodup_nil, fun w t ht => absurd ht (by simp),
    fun _ => by simp, fun t => ?_, fun _ => Nat.zero_le N⟩
  symm
  apply List.sum_eq_zero
  intro v hv
  rcases List.mem_map.mp hv with ⟨u, _, rfl⟩
  simp

theorem getValidCandidates_mem {players : List Player} {N : Nat} {g : Nat → Nat}
    {writerId : String} {st : St} {t : String}
    (h : t ∈ (getValidCandidates players N g writerId st).1) :
    t ∈ playerIds players ∧ t ≠ writerId ∧
      t ∉ (playerMapGet players writerId).data.avoids ∧
      t ∉ st.asg writerId ∧ st.tc t < N := by
  unfold getValidCandidates at h
  simp only [List.mem_append] at h
  have hval : t ∈ (playerIds players).filter (fun targetId =>
      !(targetId == writerId) &&
      !((playerMapGet players writerId).data.avoids.contains targetId) &&
      !((st.asg writerId).contains targetId) && decide (st.tc targetId < N)) := by
    rcases h with h1 | h1
    · exact (List.mem_filter.mp (shuffle_mem.mp h1)).1
    · exact (List.mem_filter.mp (shuffle_mem.mp h1)).1
  have hcond := (List.mem_filter.mp hval).2
  simp only [Bool.and_eq_true, Bool.not_eq_true', beq_eq_false_iff_ne,
    decide_eq_true_eq] at hcond
  refine ⟨(List.mem_filter.mp hval).1, hcond.1.1.1, ?_, ?_, hcond.2⟩
  · intro hmem
    have := hcond.1.1.2
    simp at this
    exact this hmem
  · intro hmem
    have := hcond.1.2
    simp at this
    exact this hmem

theorem StInv.assign {players : List Player} {N : Nat} {st : St}
    (hinv : StInv players N st) (hnd : (playerIds players).Nodup)
    {w t : String} (hw : w ∈ playerIds players) (htmem : t ∈ playerIds players)
    (hne : t ≠ w) (hav : t ∉ (playerMapGet players w).data.avoids)
    (hnotin : t ∉ st.asg w) (htc : st.tc t < N)
    (hlen : (st.asg w).length < N) (r : Nat) :
    StInv players N (St.assign { st with rng := r } w t) := by
  constructor
  · intro u hu
    have huw : u ≠ w := fun h => hu (h ▸ hw)
    simp only [St.assign, if_neg huw]
    exact hinv.alien u hu
  · intro u
    simp only [St.assign]
    by_cases huw : u = w
    · rw [if_pos huw]
      rw [List.nodup_append]
      exact ⟨hinv.nodupAsg w, List.nodup_singleton t,
        fun x hx hx2 => hnotin ((List.mem_singleton.mp hx2) ▸ hx)⟩
    · rw [if_neg huw]; exact hinv.nodupAsg u
  · intro u s hs
    simp only [St.assign] at hs
    by_cases huw : u = w
    · rw [if_pos huw] at hs
      subst huw
      rcases List.mem_append.mp hs with hs1 | hs1
      · exact hinv.memAsg u s hs1
      · rw [List.mem_singleton.mp hs1]
        exact ⟨htmem, hne, hav⟩
    · rw [if_neg huw] at hs
      exact hinv.memAsg u s hs
  · intro u
    simp only [St.assign]
    by_cases huw : u = w
    · rw [if_pos huw, List.length_append, List.length_singleton]
      subst huw
      omega
    · rw [if_neg huw]; exact hinv.lenLe u
  · intro s
    have hsplit : ∀ u,
        ((St.assign { st with rng := r } w t).asg u).count s =
          (st.asg u).count s + (if u = w ∧ s = t then 1 else 0) := by
      intro u
      simp only [St.assign]
      by_cases huw : u = w
      · subst huw
        rw [if_pos rfl, List.count_append, List.count_singleton]
        by_cases hst : s = t
        · subst hst; simp
        · have hb : (t == s) = false := beq_eq_false_iff_ne.mpr (Ne.symm hst)
          simp [hb, hst]
      · rw [if_neg huw]
        simp [huw]
    have htct : (St.assign { st with rng := r } w t).tc s =
        st.tc s + (if s = t then 1 else 0) := by
      simp only [St.assign]
      by_cases hst : s = t
      · subst hst; simp
      · simp [hst]
    rw [htct, List.map_congr_left (fun u _ => hsplit u), sum_map_add, ← hinv.tcEq s]
    congr 1
    by_cases hst : s = t
    · rw [if_pos hst]
      have hmc : (playerIds players).map (fun u => if u = w ∧ s = t then 1 else 0)
          = (playerIds players).map (fun u => if u = w then (fun _ => 1) u else 0) :=
        List.map_congr_left (fun u _ => by by_cases huw : u = w <;> simp [huw, hst])
      rw [hmc, sum_map_ite_eq (playerIds players) hnd w hw (fun _ => 1)]
    · rw [if_neg hst]
      symm
      apply List.sum_eq_zero
      intro v hv
      rcases List.mem_map.mp hv with ⟨u, _, rfl⟩
      simp [hst]
  · intro s
    simp only [St.assign]
    by_cases hst : s = t
    · subst hst
      rw [if_pos rfl]
      omega
    · rw [if_neg hst]
      exact hinv.tcLe s

theorem tryCandidates_success {f : String → Nat → Option BtRes} :
    ∀ (cands : List String) (r : Nat) (stF : St),
      tryCandidates f cands r = some (.success stF) →
      ∃ t ∈ cands, ∃ r2, f t r2 = some (.success stF) := by
  intro cands
  induction cands with
  | nil => intro r stF h; simp [tryCandidates] at h
  | cons t rest ih =>
    intro r stF h
    unfold tryCandidates at h
    cases hf : f t r with
    | none => rw [hf] at h; exact absurd h (by simp)
    | some res =>
      cases res with
      | success st2 =>
        rw [hf] at h
        simp only [Option.some.injEq, BtRes.success.injEq] at h
        exact ⟨t, List.mem_cons_self t rest, r, by rw [hf, h]⟩
      | failure r2 =>
        rw [hf] at h
        rcases ih r2 stF h with ⟨t2, ht2, r3, hf3⟩
        exact ⟨t2, List.mem_cons_of_mem t ht2, r3, hf3⟩

theorem backtrack_sound (players : List Player) (N : Nat) (g : Nat → Nat)
    (sh : List String) (hnd : (playerIds players).Nodup)
    (hsh : ∀ x, x ∈ sh → x ∈ playerIds players) :
    ∀ (fuel wi : Nat) (st stF : St), StInv players N st →
      backtrack players N g sh fuel wi st = some (.success stF) →
      StInv players N stF ∧
      (∀ w, (st.asg w).length ≤ (stF.asg w).length) ∧
      (∀ i, wi ≤ i → i < sh.length → N ≤ (stF.asg (sh.getD i "")).length) := by
  intro fuel
  induction fuel with
  | zero => intro wi st stF _ h; exact absurd h (by simp [backtrack])
  | succ fuel ih =>
    intro wi st stF hinv h
    simp only [backtrack] at h
    by_cases hlen : sh.length ≤ wi
    · rw [if_pos hlen] at h
      simp only [Option.some.injEq, BtRes.success.injEq] at h
      subst h
      exact ⟨hinv, fun w => le_refl _, fun i h1 h2 => absurd h2 (by omega)⟩
    · rw [if_neg hlen] at h
      by_cases hN : N ≤ (st.asg (sh.getD wi "")).length
      · rw [if_pos hN] at h
        rcases ih (wi + 1) st stF hinv h with ⟨h1, h2, h3⟩
        refine ⟨h1, h2, fun i hi1 hi2 => ?_⟩
        by_cases hiw : i = wi
        · subst hiw
          exact le_trans hN (h2 (sh.getD i ""))
        · exact h3 i (by omega) hi2
      · rw [if_neg hN] at h
        rcases tryCandidates_success _ _ _ h with ⟨t, htmem, r2, hcall⟩
        have hwlt : wi < sh.length := by omega
        have hmemw : sh.getD wi "" ∈ playerIds players := by
          apply hsh
          rw [List.getD_eq_getElem sh "" hwlt]
          exact List.getElem_mem hwlt
        rcases getValidCandidates_mem htmem with ⟨ht1, ht2, ht3, ht4, ht5⟩
        have hinv2 : StInv players N
            (St.assign { st with rng := r2 } (sh.getD wi "") t) :=
          StInv.assign hinv hnd hmemw ht1 ht2 ht3 ht4 ht5 (by omega) r2
        rcases ih wi _ stF hinv2 hcall with ⟨hF, hmono, hfull⟩
        have hstep : ∀ u, (st.asg u).length ≤
            ((St.assign { st with rng := r2 } (sh.getD wi "") t).asg u).length := by
          intro u
          simp only [St.assign]
          by_cases huw : u = sh.getD wi ""
          · subst huw
            rw [if_pos rfl, List.length_append]
            simp
          · rw [if_neg huw]
        exact ⟨hF, fun u => le_trans (hstep u) (hmono u), hfull⟩

theorem countP_const {α : Type} (b : Bool) :
    ∀ l : List α, l.countP (fun _ => b) = if b then l.length else 0 := by
  intro l
  induction l with
  | nil => cases b <;> simp
  | cons a l ih =>
    rw [List.countP_cons, ih]
    cases b <;> simp

theorem sum_map_constN {α : Type} (N : Nat) :
    ∀ l : List α, (l.map (fun _ => N)).sum = l.length * N := by
  intro l
  induction l with
  | nil => simp
  | cons a l ih => simp [ih]; ring

theorem sum_map_sum_comm (l1 l2 : List String) (F : String → String → Nat) :
    (l1.map (fun u => (l2.map (fun w => F u w)).sum)).sum =
      (l2.map (fun w => (l1.map (fun u => F u w)).sum)).sum := by
  induction l1 with
  | nil =>
    simp only [List.map_nil, List.sum_nil]
    symm
    apply List.sum_eq_zero
    intro v hv
    rcases List.mem_map.mp hv with ⟨w, _, rfl⟩
    simp
  | cons u l1 ih =>
    simp only [List.map_cons, List.sum_cons]
    rw [sum_map_add (fun w => F u w) (fun w => (l1.map (fun v => F v w)).sum) l2, ih]

theorem nodup_extract (asgf : String → List String) :
    ∀ S : List String, S.Nodup → (∀ w ∈ S, (asgf w).Nodup) →
      (S.flatMap (fun w => (asgf w).map
        (fun t => (⟨w, t⟩ : Assignment)))).Nodup := by
  intro S
  induction S with
  | nil => intro _ _; simp
  | cons w S ih =>
    intro hnd hblocks
    rw [List.nodup_cons] at hnd
    rw [List.flatMap_cons]
    apply List.Nodup.append
    · apply List.Nodup.map
      · intro t1 t2 hEq
        exact congrArg Assignment.targetId hEq
      · exact hblocks w (List.mem_cons_self w S)
    · exact ih hnd.2 (fun u hu => hblocks u (List.mem_cons_of_mem w hu))
    · rw [List.disjoint_left]
      intro a ha ha2
      rcases List.mem_map.mp ha with ⟨t, _, rfl⟩
      rcases List.mem_flatMap.mp ha2 with ⟨w2, hw2, haw2⟩
      rcases List.mem_map.mp haw2 with ⟨t2, _, hEq⟩
      have : w2 = w := congrArg Assignment.writerId hEq
      exact hnd.1 (this ▸ hw2)

theorem tc_eq_N (players : List Player) (N : Nat) (hnd : (playerIds players).Nodup)
    (st : St) (hinv : StInv players N st)
    (hfull : ∀ w ∈ playerIds players, (st.asg w).length = N) :
    ∀ u ∈ playerIds players, st.tc u = N := by
  have hsum : ((playerIds players).map (fun u => st.tc u)).sum =
      (playerIds players).length * N := by
    rw [List.map_congr_left (fun u _ => hinv.tcEq u)]
    rw [sum_map_sum_comm (playerIds players) (playerIds players)
      (fun u w => (st.asg w).count u)]
    rw [List.map_congr_left (fun w hw => count_sum_eq_length hnd (st.asg w)
      (fun x hx => (hinv.memAsg w x hx).1))]
    rw [List.map_congr_left (fun w hw => hfull w hw)]
    exact sum_map_constN N (playerIds players)
  intro u hu
  have := pigeonhole_list ((playerIds players).map (fun u => st.tc u)) N
    (by
      intro x hx
      rcases List.mem_map.mp hx with ⟨v, _, rfl⟩
      exact hinv.tcLe v)
    (by rw [hsum, List.length_map])
  exact this (st.tc u) (List.mem_map_of_mem (fun u => st.tc u) hu)

theorem extract_valid (players : List Player) (N : Nat)
    (hnd : (playerIds players).Nodup) (st : St) (hinv : StInv players N st)
    (hfull : ∀ w ∈ playerIds players, (st.asg w).length = N) :
    ValidAssignment players N (extractAssignments players st) := by
  refine ⟨?_, ?_, ?_, ?_, ?_, ?_⟩
  · intro p hp
    have hpu : p.uid ∈ playerIds players := List.mem_map_of_mem (fun q => q.uid) hp
    rw [extractAssignments, List.countP_flatMap]
    have hblock : ∀ w ∈ playerIds players,
        (List.countP (fun a => a.writerId == p.uid) ∘
          fun w => (st.asg w).map (fun t => (⟨w, t⟩ : Assignment))) w =
        (if w = p.uid then (fun v => (st.asg v).length) w else 0) := by
      intro w _
      simp only [Function.comp_apply, List.countP_map]
      have : ((fun a => a.writerId == p.uid) ∘ fun t => (⟨w, t⟩ : Assignment)) =
          (fun _ => (w == p.uid)) := rfl
      rw [this, countP_const (w == p.uid) (st.asg w)]
      by_cases hwp : w = p.uid
      · simp [hwp]
      · have : (w == p.uid) = false := beq_eq_false_iff_ne.mpr hwp
        simp [this, hwp]
    rw [List.map_congr_left hblock,
      sum_map_ite_eq (playerIds players) hnd p.uid hpu (fun v => (st.asg v).length)]
    exact hfull p.uid hpu
  · intro p hp
    have hpu : p.uid ∈ playerIds players := List.mem_map_of_mem (fun q => q.uid) hp
    rw [extractAssignments, List.countP_flatMap]
    have hblock : ∀ w ∈ playerIds players,
        (List.countP (fun a => a.targetId == p.uid) ∘
          fun w => (st.asg w).map (fun t => (⟨w, t⟩ : Assignment))) w =
        (st.asg w).count p.uid := by
      intro w _
      simp only [Function.comp_apply, List.countP_map]
      rfl
    rw [List.map_congr_left hblock, ← hinv.tcEq p.uid]
    exact tc_eq_N players N hnd st hinv hfull p.uid hpu
  · intro a ha
    rcases List.mem_flatMap.mp ha with ⟨w, _, haw⟩
    rcases List.mem_map.mp haw with ⟨t, ht, rfl⟩
    exact fun h => (hinv.memAsg w t ht).2.1 (by exact h.symm)
  · exact nodup_extract st.asg (playerIds players) hnd (fun w _ => hinv.nodupAsg w)
  · intro a ha
    rcases List.mem_flatMap.mp ha with ⟨w, hw, haw⟩
    rcases List.mem_map.mp haw with ⟨t, ht, rfl⟩
    exact ⟨hw, (hinv.memAsg w t ht).1⟩
  · intro a ha p hp hpw
    rcases List.mem_flatMap.mp ha with ⟨w, hw, haw⟩
    rcases List.mem_map.mp haw with ⟨t, ht, rfl⟩
    intro hmem
    apply (hinv.memAsg w t ht).2.2
    have : playerMapGet players w = p := by
      have := playerMapGet_eq hnd hp
      rw [hpw] at this
      exact this
    rw [this]
    exact hmem

theorem attemptLoop_sound (players : List Player) (N : Nat) (g : Nat → Nat)
    (fuel : Nat) (hnd : (playerIds players).Nodup) :
    ∀ (attempts r : Nat) (asgs : List Assignment),
      attemptLoop players N g fuel attempts r = some asgs →
      ValidAssignment players N asgs := by
  intro attempts
  induction attempts with
  | zero => intro r asgs h; simp [attemptLoop] at h
  | succ k ih =>
    intro r asgs h
    simp only [attemptLoop] at h
    cases hbt : backtrack players N g (shuffle g (playerIds players) r).1 fuel 0
        ⟨fun _ => [], fun _ => 0, (shuffle g (playerIds players) r).2⟩ with
    | none => rw [hbt] at h; exact absurd h (by simp)
    | some res =>
      cases res with
      | failure r2 => rw [hbt] at h; exact ih r2 asgs h
      | success st =>
        rw [hbt] at h
        simp only [Option.some.injEq] at h
        subst h
        have hsh : ∀ x, x ∈ (shuffle g (playerIds players) r).1 →
            x ∈ playerIds players := fun x hx => shuffle_mem.mp hx
        rcases backtrack_sound players N g _ hnd hsh fuel 0 _ st
          (StInv.init players N _) hbt with ⟨hinv, _, hfull⟩
        apply extract_valid players N hnd st hinv
        intro w hw
        have hw2 : w ∈ (shuffle g (playerIds players) r).1 := shuffle_mem.mpr hw
        rcases List.mem_iff_getElem.mp hw2 with ⟨i, hi, hEq⟩
        have hge := hfull i (Nat.zero_le i) hi
        rw [List.getD_eq_getElem _ "" hi, hEq] at hge
        exact le_antisymm (hinv.lenLe w) hge

/-- C1: for every player list with pairwise-distinct uids and every `N`, a
non-null `runMatchmaking` result satisfies all output invariants: every
player writes exactly `N` times, is written about exactly `N` times, no
self-assignment, no duplicate pair, edges stay inside the roster, and no
assignment pairs a writer with a target in the avoids list of that writer — the
avoid invariant holding unconditionally, hence in particular also when the
avoided target appears in the preferences list of the writer. -/
theorem runMatchmaking_output_invariants (players : List Player) (N : Nat)
    (g : Nat → Nat) (asgs : List Assignment) (hnd : (playerIds players).Nodup)
    (h : (runMatchmaking players N g).1 = some asgs) :
    ValidAssignment players N asgs := by
  simp only [runMatchmaking, runMatchmakingWith] at h
  by_cases h2 : players.length < 2
  · rw [if_pos h2] at h; simp at h
  · rw [if_neg h2] at h
    by_cases hN : N < 1
    · rw [if_pos hN] at h; simp at h
    · rw [if_neg hN] at h
      cases hf1 : players.find? (fun p => decide (validCandidateCount players p < N)) with
      | some p => rw [hf1] at h; simp at h
      | none =>
        rw [hf1] at h
        cases hf2 : players.find? (fun t => decide (canWriteCount players t < N)) with
        | some t => rw [hf2] at h; simp at h
        | none =>
          rw [hf2] at h
          cases hal : attemptLoop players N g (players.length * (N + 1) + 1) 100 0 with
          | none => rw [hal] at h; simp at h
          | some res =>
            rw [hal] at h
            simp only [Option.some.injEq] at h
            subst h
            exact attemptLoop_sound players N g _ hnd 100 0 res hal

theorem runMatchmaking_output_invariants_witness :
    ValidAssignment [exA, exB] 1 [⟨"a", "b"⟩, ⟨"b", "a"⟩] :=
  runMatchmaking_output_invariants [exA, exB] 1 g0 [⟨"a", "b"⟩, ⟨"b", "a"⟩]
    (by decide) (by decide)

theorem tryCandidates_congr {f1 f2 : String → Nat → Option BtRes}
    (hpt : ∀ t r, f1 t r = f2 t r) :
    ∀ (cands : List String) (r : Nat),
      tryCandidates f1 cands r = tryCandidates f2 cands r := by
  intro cands
  induction cands with
  | nil => intro r; rfl
  | cons t rest ih =>
    intro r
    unfold tryCandidates
    rw [hpt t r]
    cases f2 t r with
    | none => rfl
    | some res =>
      cases res with
      | success st => rfl
      | failure r2 => exact ih r2

theorem backtrack_fuel_eq (players : List Player) (N : Nat) (g : Nat → Nat)
    (sh : List String) :
    ∀ (m fuel fuel2 wi : Nat) (st : St),
      btMeasure sh N wi st = m → m < fuel → m < fuel2 →
      (∀ w, (st.asg w).length ≤ N) →
      backtrack players N g sh fuel wi st = backtrack players N g sh fuel2 wi st := by
  intro m
  induction m using Nat.strong_induction_on with
  | _ m ih =>
    intro fuel fuel2 wi st hm hf1 hf2 hb
    cases fuel with
    | zero => omega
    | succ f =>
      cases fuel2 with
      | zero => omega
      | succ f2 =>
        simp only [backtrack]
        by_cases hlen : sh.length ≤ wi
        · rw [if_pos hlen, if_pos hlen]
        · rw [if_neg hlen, if_neg hlen]
          have hk : 1 ≤ sh.length - wi := by omega
          have hmul : (sh.length - wi) * (N + 1) =
              (sh.length - wi - 1) * (N + 1) + (N + 1) := by
            have h1 : sh.length - wi - 1 + 1 = sh.length - wi := by omega
            calc (sh.length - wi) * (N + 1)
                = (sh.length - wi - 1 + 1) * (N + 1) := by rw [h1]
              _ = (sh.length - wi - 1) * (N + 1) + (N + 1) := by ring
          by_cases hN : N ≤ (st.asg (sh.getD wi "")).length
          · rw [if_pos hN, if_pos hN]
            have hminN : min ((st.asg (sh.getD wi "")).length) N = N :=
              Nat.min_eq_right hN
            have hm2 : btMeasure sh N (wi + 1) st < m := by
              have hs1 : sh.length - (wi + 1) = sh.length - wi - 1 := by omega
              have hle : min ((st.asg (sh.getD (wi + 1) "")).length) N ≤ N :=
                Nat.min_le_right _ _
              unfold btMeasure at hm ⊢
              rw [hminN] at hm
              rw [hs1]
              omega
            exact ih _ hm2 f f2 (wi + 1) st rfl (by omega) (by omega) hb
          · rw [if_neg hN, if_neg hN]
            apply tryCandidates_congr
            intro t r
            have hc : (st.asg (sh.getD wi "")).length < N := by omega
            have hminc : min ((st.asg (sh.getD wi "")).length) N =
                (st.asg (sh.getD wi "")).length :=
              Nat.min_eq_left (by omega)
            have hasg : ((St.assign { st with rng := r } (sh.getD wi "") t).asg
                (sh.getD wi "")).length = (st.asg (sh.getD wi "")).length + 1 := by
              simp [St.assign]
            have hb2 : ∀ w, ((St.assign { st with rng := r } (sh.getD wi "") t).asg
                w).length ≤ N := by
              intro w
              simp only [St.assign]
              by_cases hw : w = sh.getD wi ""
              · rw [if_pos hw, List.length_append]
                simp only [List.length_singleton]
                omega
              · rw [if_neg hw]
                exact hb w
            have hm2 : btMeasure sh N wi
                (St.assign { st with rng := r } (sh.getD wi "") t) < m := by
              unfold btMeasure at hm ⊢
              rw [hminc] at hm
              rw [hasg]
              have hminc2 : min ((st.asg (sh.getD wi "")).length + 1) N =
                  (st.asg (sh.getD wi "")).length + 1 := Nat.min_eq_left (by omega)
              rw [hminc2]
              omega
            exact ih _ hm2 f f2 wi _ rfl (by omega) (by omega) hb2

theorem attemptLoop_fuel_eq (players : List Player) (N : Nat) (g : Nat → Nat)
    (fuel fuel2 : Nat) (h1 : players.length * (N + 1) < fuel)
    (h2 : players.length * (N + 1) < fuel2) :
    ∀ (attempts r : Nat),
      attemptLoop players N g fuel attempts r =
        attemptLoop players N g fuel2 attempts r := by
  intro attempts
  induction attempts with
  | zero => intro r; rfl
  | succ k ih =>
    intro r
    simp only [attemptLoop]
    have hlensh : (shuffle g (playerIds players) r).1.length = players.length := by
      rw [(shuffle_perm g (playerIds players) r).length_eq]
      rw [playerIds, List.length_map]
    have hbt := backtrack_fuel_eq players N g (shuffle g (playerIds players) r).1
      (players.length * (N + 1)) fuel fuel2 0
      ⟨fun _ => [], fun _ => 0, (shuffle g (playerIds players) r).2⟩
      (by simp [btMeasure, hlensh]) h1 h2 (fun w => by simp)
    rw [hbt]
    cases backtrack players N g (shuffle g (playerIds players) r).1 fuel2 0
        ⟨fun _ => [], fun _ => 0, (shuffle g (playerIds players) r).2⟩ with
    | none => rfl
    | some res =>
      cases res with
      | success st => rfl
      | failure r2 => exact ih r2

/-- C9: `runMatchmaking` terminates on every input.  The backtracking
recursion reaches call depth at most `players.length * (N + 1)`, because each
recursive call either advances the writer index or strictly lengthens the
assignment list of the current writer, which is bounded by `N`; hence the result
is the same for every call-depth budget above that bound (the budget
`runMatchmaking` itself uses), and the outer loop performs exactly the hard
cap of 100 attempts before returning. -/
theorem runMatchmaking_fuel_irrelevant (players : List Player) (N : Nat)
    (g : Nat → Nat) (fuel : Nat) (hfuel : players.length * (N + 1) < fuel) :
    runMatchmakingWith fuel players N g = runMatchmaking players N g := by
  have h := attemptLoop_fuel_eq players N g fuel (players.length * (N + 1) + 1)
    hfuel (by omega) 100 0
  simp only [runMatchmaking, runMatchmakingWith, h]

theorem runMatchmaking_fuel_irrelevant_witness :
    [exA, exB].length * (1 + 1) < 20 ∧
      runMatchmakingWith 20 [exA, exB] 1 g0 = runMatchmaking [exA, exB] 1 g0 :=
  ⟨by decide, runMatchmaking_fuel_irrelevant [exA, exB] 1 g0 20 (by decide)⟩

/-- C2: with at least 2 players and `N ≥ 1`, writer or target starvation
makes `runMatchmaking` return `null` for every outcome of the randomization
(the validation runs before any search), and the console output identifies a
starved participant by name, uid and counts. -/
theorem runMatchmaking_starvation_null (players : List Player) (N : Nat)
    (g : Nat → Nat) (h2 : 2 ≤ players.length) (hN : 1 ≤ N)
    (hstarv : (∃ p ∈ players, validCandidateCount players p < N) ∨
      (∃ t ∈ players, canWriteCount players t < N)) :
    (runMatchmaking players N g).1 = none ∧
      ∃ q ∈ players,
        (validCandidateCount players q < N ∧
          LogEvent.errWriterStarved q.data.name q.uid (validCandidateCount players q) ∈
            (runMatchmaking players N g).2) ∨
        (canWriteCount players q < N ∧
          LogEvent.errTargetStarved q.data.name q.uid
            (players.length - 1 - canWriteCount players q) (canWriteCount players q) ∈
            (runMatchmaking players N g).2) := by
  simp only [runMatchmaking, runMatchmakingWith]
  rw [if_neg (by omega : ¬ players.length < 2), if_neg (by omega : ¬ N < 1)]
  cases hf1 : players.find? (fun p => decide (validCandidateCount players p < N)) with
  | some p =>
    have hpmem := List.mem_of_find?_eq_some hf1
    have hplt : validCandidateCount players p < N := by
      have := List.find?_some hf1
      simpa using this
    exact ⟨rfl, p, hpmem, Or.inl ⟨hplt, by simp⟩⟩
  | none =>
    have hnone : ∀ p ∈ players, ¬ (validCandidateCount players p < N) := by
      intro p hp
      have := List.find?_eq_none.mp hf1 p hp
      simpa using this
    have hT : ∃ t ∈ players, canWriteCount players t < N := by
      rcases hstarv with ⟨p, hp, hlt⟩ | h
      · exact absurd hlt (hnone p hp)
      · exact h
    cases hf2 : players.find? (fun t => decide (canWriteCount players t < N)) with
    | some t =>
      have htm := List.mem_of_find?_eq_some hf2
      have htlt : canWriteCount players t < N := by
        have := List.find?_some hf2
        simpa using this
      exact ⟨rfl, t, htm, Or.inr ⟨htlt, by simp⟩⟩
    | none =>
      rcases hT with ⟨t, ht, hlt⟩
      have := List.find?_eq_none.mp hf2 t ht
      simp at this
      omega

theorem runMatchmaking_starvation_null_witness :
    (runMatchmaking [exA3, exB, exC] 1 g0).1 = none ∧
      ∃ q ∈ [exA3, exB, exC],
        (validCandidateCount [exA3, exB, exC] q < 1 ∧
          LogEvent.errWriterStarved q.data.name q.uid
            (validCandidateCount [exA3, exB, exC] q) ∈
            (runMatchmaking [exA3, exB, exC] 1 g0).2) ∨
        (canWriteCount [exA3, exB, exC] q < 1 ∧
          LogEvent.errTargetStarved q.data.name q.uid
            ([exA3, exB, exC].length - 1 - canWriteCount [exA3, exB, exC] q)
            (canWriteCount [exA3, exB, exC] q) ∈
            (runMatchmaking [exA3, exB, exC] 1 g0).2) :=
  runMatchmaking_starvation_null [exA3, exB, exC] 1 g0 (by decide) (by decide)
    (Or.inl ⟨exA3, by decide, by decide⟩)

/-- C4 counterexample: two failures of different classes — an invalid input
(fewer than 2 players) and a writer-starved roster — produce the very same
returned value `null`; the returned result is a single undifferentiated
failure value carrying no reason and no offending identities, contrary to
the claim. -/
theorem runMatchmaking_failures_indistinguishable :
    (runMatchmaking [] 1 g0).1 = none ∧
      (runMatchmaking [exA3, exB, exC] 1 g0).1 = none ∧
      (runMatchmaking [] 1 g0).1 = (runMatchmaking [exA3, exB, exC] 1 g0).1 := by
  exact ⟨by decide, by decide, by decide⟩

/-- C4 (amended): every failure of `runMatchmaking` is returned as the same
null value; the failure class (insufficient players, invalid `N`, writer
starvation, target starvation, and exhaustion of all 100 search attempts,
i.e. `NoSolutionFound`) together with the offending
name, uid and counts is conveyed only through the console log, not through
the returned value — so the returned value alone does not distinguish a
search failure from a validator rejection. -/
theorem runMatchmaking_failure_reporting (players : List Player) (N : Nat)
    (g : Nat → Nat) :
    (players.length < 2 →
      runMatchmaking players N g =
        (none, [.started players.length N, .errNotEnoughPlayers])) ∧
    (2 ≤ players.length → N < 1 →
      runMatchmaking players N g =
        (none, [.started players.length N, .errInvalidN])) ∧
    (∀ p, 2 ≤ players.length → 1 ≤ N →
      players.find? (fun q => decide (validCandidateCount players q < N)) = some p →
      runMatchmaking players N g = (none, [.started players.length N,
        .errWriterStarved p.data.name p.uid (validCandidateCount players p)])) ∧
    (∀ t, 2 ≤ players.length → 1 ≤ N →
      players.find? (fun q => decide (validCandidateCount players q < N)) = none →
      players.find? (fun q => decide (canWriteCount players q < N)) = some t →
      runMatchmaking players N g = (none, [.started players.length N,
        .errTargetStarved t.data.name t.uid
          (players.length - 1 - canWriteCount players t)
          (canWriteCount players t)])) ∧
    (2 ≤ players.length → 1 ≤ N →
      players.find? (fun q => decide (validCandidateCount players q < N)) = none →
      players.find? (fun q => decide (canWriteCount players q < N)) = none →
      attemptLoop players N g (players.length * (N + 1) + 1) 100 0 = none →
      runMatchmaking players N g =
        (none, [.started players.length N, .errNoSolution 100])) := by
  refine ⟨?_, ?_, ?_, ?_, ?_⟩
  · intro h
    simp only [runMatchmaking, runMatchmakingWith]
    rw [if_pos h]
    rfl
  · intro h hN
    simp only [runMatchmaking, runMatchmakingWith]
    rw [if_neg (by omega : ¬ players.length < 2), if_pos hN]
    rfl
  · intro p h hN hf
    simp only [runMatchmaking, runMatchmakingWith]
    rw [if_neg (by omega : ¬ players.length < 2), if_neg (by omega : ¬ N < 1), hf]
    rfl
  · intro t h hN hf1 hf2
    simp only [runMatchmaking, runMatchmakingWith]
    rw [if_neg (by omega : ¬ players.length < 2), if_neg (by omega : ¬ N < 1),
      hf1, hf2]
    rfl
  · intro h hN hf1 hf2 hal
    simp only [runMatchmaking, runMatchmakingWith]
    rw [if_neg (by omega : ¬ players.length < 2), if_neg (by omega : ¬ N < 1),
      hf1, hf2, hal]
    rfl

theorem gvc_single (players : List Player) (N : Nat) (g : Nat → Nat)
    (w : String) (st : St) (x : String)
    (hval : (playerIds players).filter (fun targetId =>
      !(targetId == w) && !((playerMapGet players w).data.avoids.contains targetId) &&
      !((st.asg w).contains targetId) && decide (st.tc targetId < N)) = [x]) :
    getValidCandidates players N g w st = ([x], st.rng) := by
  simp only [getValidCandidates]
  rw [hval]
  cases h : (playerMapGet players w).data.preferences.contains x with
  | true =>
    rw [show ([x].filter (fun id => (playerMapGet players w).data.preferences.contains id)) =
        [x] by simp only [List.filter_cons, List.filter_nil]; rw [h]; simp]
    rw [show ([x].filter (fun id => !((playerMapGet players w).data.preferences.contains id))) =
        ([] : List String) by simp only [List.filter_cons, List.filter_nil]; rw [h]; simp]
    rw [shuffle_short g [x] st.rng (by simp), shuffle_short g [] _ (by simp)]
    rfl
  | false =>
    rw [show ([x].filter (fun id => (playerMapGet players w).data.preferences.contains id)) =
        ([] : List String) by simp only [List.filter_cons, List.filter_nil]; rw [h]; simp]
    rw [show ([x].filter (fun id => !((playerMapGet players w).data.preferences.contains id))) =
        [x] by simp only [List.filter_cons, List.filter_nil]; rw [h]; simp]
    rw [shuffle_short g [] st.rng (by simp), shuffle_short g [x] _ (by simp)]
    rfl

theorem two_player_backtrack (A B : Player) (g : Nat → Nat) (hAB : A.uid ≠ B.uid)
    (hA : A.data.avoids = []) (hB : B.data.avoids = []) (r : Nat) (sh : List String)
    (hsh : sh = [A.uid, B.uid] ∨ sh = [B.uid, A.uid]) :
    ∃ st : St, backtrack [A, B] 1 g sh 5 0 ⟨fun _ => [], fun _ => 0, r⟩ =
      some (.success st) ∧ st.asg A.uid = [B.uid] ∧ st.asg B.uid = [A.uid] := by
  have hba : (B.uid == A.uid) = false := beq_eq_false_iff_ne.mpr (Ne.symm hAB)
  have hab : (A.uid == B.uid) = false := beq_eq_false_iff_ne.mpr hAB
  have hgetA : playerMapGet [A, B] A.uid = A := by
    simp [playerMapGet, List.find?_cons, hba]
  have hgetB : playerMapGet [A, B] B.uid = B := by
    simp [playerMapGet, List.find?_cons, hab]
  set st0 : St := ⟨fun _ => [], fun _ => 0, r⟩ with hst0
  rcases hsh with rfl | rfl
  · have hval1 : (playerIds [A, B]).filter (fun t =>
        !(t == A.uid) && !((playerMapGet [A, B] A.uid).data.avoids.contains t) &&
        !((st0.asg A.uid).contains t) && decide (st0.tc t < 1)) = [B.uid] := by
      rw [hgetA]
      simp [playerIds, List.filter_cons, hba, hA]
    have hc1 : getValidCandidates [A, B] 1 g A.uid st0 = ([B.uid], r) :=
      gvc_single [A, B] 1 g A.uid st0 B.uid hval1
    set st1 : St := St.assign { st0 with rng := r } A.uid B.uid with hst1
    have hasg1A : st1.asg A.uid = [B.uid] := by
      simp [hst1, St.assign]
    have hasg1B : st1.asg B.uid = [] := by
      simp [hst1, St.assign, Ne.symm hAB]
    have htc1A : st1.tc A.uid = 0 := by simp [hst1, St.assign, hAB]
    have hrng1 : st1.rng = r := by simp [hst1, St.assign]
    have hval2 : (playerIds [A, B]).filter (fun t =>
        !(t == B.uid) && !((playerMapGet [A, B] B.uid).data.avoids.contains t) &&
        !((st1.asg B.uid).contains t) && decide (st1.tc t < 1)) = [A.uid] := by
      rw [hgetB, hasg1B]
      simp [playerIds, List.filter_cons, hab, hB, htc1A]
    have hc2 : getValidCandidates [A, B] 1 g B.uid st1 = ([A.uid], r) := by
      have h := gvc_single [A, B] 1 g B.uid st1 A.uid hval2
      rw [hrng1] at h
      exact h
    set st2 : St := St.assign { st1 with rng := r } B.uid A.uid with hst2
    have hasg2A : st2.asg A.uid = [B.uid] := by
      simp [hst2, St.assign, hAB, hasg1A]
    have hasg2B : st2.asg B.uid = [A.uid] := by
      simp [hst2, St.assign, hasg1B]
    refine ⟨st2, ?_, hasg2A, hasg2B⟩
    simp only [backtrack, tryCandidates, hc1, hc2, ← hst1, ← hst2,
      hasg1A, hasg1B, hasg2A, hasg2B, List.length_cons, List.length_nil,
      List.getD_cons_zero, List.getD_cons_succ, List.length_singleton]
    norm_num
  · have hval1 : (playerIds [A, B]).filter (fun t =>
        !(t == B.uid) && !((playerMapGet [A, B] B.uid).data.avoids.contains t) &&
        !((st0.asg B.uid).contains t) && decide (st0.tc t < 1)) = [A.uid] := by
      rw [hgetB]
      simp [playerIds, List.filter_cons, hab, hB]
    have hc1 : getValidCandidates [A, B] 1 g B.uid st0 = ([A.uid], r) :=
      gvc_single [A, B] 1 g B.uid st0 A.uid hval1
    set st1 : St := St.assign { st0 with rng := r } B.uid A.uid with hst1
    have hasg1A : st1.asg A.uid = [] := by
      simp [hst1, St.assign, hAB]
    have hasg1B : st1.asg B.uid = [A.uid] := by
      simp [hst1, St.assign]
    have htc1B : st1.tc B.uid = 0 := by simp [hst1, St.assign, Ne.symm hAB]
    have hrng1 : st1.rng = r := by simp [hst1, St.assign]
    have hval2 : (playerIds [A, B]).filter (fun t =>
        !(t == A.uid) && !((playerMapGet [A, B] A.uid).data.avoids.contains t) &&
        !((st1.asg A.uid).contains t) && decide (st1.tc t < 1)) = [B.uid] := by
      rw [hgetA, hasg1A]
      simp [playerIds, List.filter_cons, hba, hA, htc1B]
    have hc2 : getValidCandidates [A, B] 1 g A.uid st1 = ([B.uid], r) := by
      have h := gvc_single [A, B] 1 g A.uid st1 B.uid hval2
      rw [hrng1] at h
      exact h
    set st2 : St := St.assign { st1 with rng := r } A.uid B.uid with hst2
    have hasg2A : st2.asg A.uid = [B.uid] := by
      simp [hst2, St.assign, hasg1A]
    have hasg2B : st2.asg B.uid = [A.uid] := by
      simp [hst2, St.assign, Ne.symm hAB, hasg1B]
    refine ⟨st2, ?_, hasg2A, hasg2B⟩
    simp only [backtrack, tryCandidates, hc1, hc2, ← hst1, ← hst2,
      hasg1A, hasg1B, hasg2A, hasg2B, List.length_cons, List.length_nil,
      List.getD_cons_zero, List.getD_cons_succ, List.length_singleton]
    norm_num

/-- C3: for every pair of distinct players with empty avoids lists and every
outcome of the internal randomization, `runMatchmaking([A, B], 1)` returns
exactly the two assignments `A` writes about `B` and `B` writes about `A`. -/
theorem runMatchmaking_two_players (A B : Player) (g : Nat → Nat)
    (hAB : A.uid ≠ B.uid) (hA : A.data.avoids = []) (hB : B.data.avoids = []) :
    (runMatchmaking [A, B] 1 g).1 =
      some [⟨A.uid, B.uid⟩, ⟨B.uid, A.uid⟩] := by
  have hba : (B.uid == A.uid) = false := beq_eq_false_iff_ne.mpr (Ne.symm hAB)
  have hab : (A.uid == B.uid) = false := beq_eq_false_iff_ne.mpr hAB
  have hvA : validCandidateCount [A, B] A = 1 := by
    simp [validCandidateCount, List.filter_cons, hba, hA]
  have hvB : validCandidateCount [A, B] B = 1 := by
    simp [validCandidateCount, List.filter_cons, hab, hB]
  have hcA : canWriteCount [A, B] A = 1 := by
    simp [canWriteCount, List.filter_cons, hba, hB]
  have hcB : canWriteCount [A, B] B = 1 := by
    simp [canWriteCount, List.filter_cons, hab, hA]
  have hf1 : [A, B].find? (fun p => decide (validCandidateCount [A, B] p < 1)) = none := by
    apply List.find?_eq_none.mpr
    intro x hx
    rcases List.mem_cons.mp hx with rfl | hx2
    · simp [hvA]
    · rw [List.mem_singleton.mp hx2]
      simp [hvB]
  have hf2 : [A, B].find? (fun p => decide (canWriteCount [A, B] p < 1)) = none := by
    apply List.find?_eq_none.mpr
    intro x hx
    rcases List.mem_cons.mp hx with rfl | hx2
    · simp [hcA]
    · rw [List.mem_singleton.mp hx2]
      simp [hcB]
  simp only [runMatchmaking, runMatchmakingWith]
  rw [if_neg (by norm_num : ¬ ([A, B] : List Player).length < 2),
    if_neg (by norm_num : ¬ (1 : Nat) < 1), hf1, hf2]
  have hfuel : ([A, B] : List Player).length * (1 + 1) + 1 = 5 := by norm_num
  rw [hfuel]
  have hpids : playerIds [A, B] = [A.uid, B.uid] := by simp [playerIds]
  have hshuf : shuffle g [A.uid, B.uid] 0 = (listSwap [A.uid, B.uid] 1 (g 0 % 2), 1) := by
    simp [shuffle, shuffleAux]
  have hsw : listSwap [A.uid, B.uid] 1 (g 0 % 2) = [A.uid, B.uid] ∨
      listSwap [A.uid, B.uid] 1 (g 0 % 2) = [B.uid, A.uid] := by
    rcases Nat.mod_two_eq_zero_or_one (g 0) with hg | hg
    · right
      rw [hg]
      simp [listSwap]
    · left
      rw [hg]
      simp [listSwap]
  rcases two_player_backtrack A B g hAB hA hB 1
      (listSwap [A.uid, B.uid] 1 (g 0 % 2)) hsw with ⟨st, hbt, hstA, hstB⟩
  have hloop : attemptLoop [A, B] 1 g 5 100 0 =
      some (extractAssignments [A, B] st) := by
    rw [attemptLoop.eq_2]
    simp only [hpids, hshuf]
    rw [hbt]
  rw [hloop]
  have hext : extractAssignments [A, B] st = [⟨A.uid, B.uid⟩, ⟨B.uid, A.uid⟩] := by
    simp [extractAssignments, hpids, hstA, hstB]
  rw [hext]

theorem runMatchmaking_two_players_witness :
    (runMatchmaking [exA, exB] 1 g0).1 =
      some [⟨exA.uid, exB.uid⟩, ⟨exB.uid, exA.uid⟩] :=
  runMatchmaking_two_players exA exB g0 (by decide) (by decide) (by decide)

theorem forall2_uid_eq {players1 players2 : List Player}
    (h : List.Forall₂ AvoidsRefines players1 players2) :
    playerIds players1 = playerIds players2 := by
  induction h with
  | nil => rfl
  | cons hR _ ih =>
    simp only [playerIds, List.map_cons] at ih ⊢
    rw [hR.1, ih]

theorem forall2_mem_right {R : Player → Player → Prop} :
    ∀ {players1 players2 : List Player}, List.Forall₂ R players1 players2 →
      ∀ q ∈ players2, ∃ p ∈ players1, R p q := by
  intro players1 players2 h
  induction h with
  | nil => intro q hq; simp at hq
  | cons hR _ ih =>
    intro q hq
    rcases List.mem_cons.mp hq with rfl | hq2
    · exact ⟨_, List.mem_cons_self _ _, hR⟩
    · rcases ih q hq2 with ⟨p, hp, hpq⟩
      exact ⟨p, List.mem_cons_of_mem _ hp, hpq⟩

theorem feasible_mono {players1 players2 : List Player} {N : Nat}
    (hrel : List.Forall₂ AvoidsRefines players1 players2) :
    Feasible players1 N → Feasible players2 N := by
  rintro ⟨asgs, h1, h2, h3, h4, h5, h6⟩
  refine ⟨asgs, ?_, ?_, h3, h4, ?_, ?_⟩
  · intro q hq
    rcases forall2_mem_right hrel q hq with ⟨p, hp, hpq⟩
    rw [← hpq.1]
    exact h1 p hp
  · intro q hq
    rcases forall2_mem_right hrel q hq with ⟨p, hp, hpq⟩
    rw [← hpq.1]
    exact h2 p hp
  · intro a ha
    rw [← forall2_uid_eq hrel]
    exact h5 a ha
  · intro a ha q hq hquid hmem
    rcases forall2_mem_right hrel q hq with ⟨p, hp, hpq⟩
    exact h6 a ha p hp (hpq.1.trans hquid) (hpq.2 a.targetId hmem)

theorem forall2_modifyAt {R : Player → Player → Prop} (f : Player → Player)
    (hrefl : ∀ p, R p p) (hf : ∀ p, R p (f p)) :
    ∀ (l : List Player) (i : Nat), List.Forall₂ R l (modifyAt f l i) := by
  intro l
  induction l with
  | nil => intro i; exact List.Forall₂.nil
  | cons p l ih =>
    intro i
    cases i with
    | zero =>
      exact List.Forall₂.cons (hf p) (List.forall₂_same.mpr (fun x _ => hrefl x))
    | succ n => exact List.Forall₂.cons (hrefl p) (ih n)

theorem forall2_modifyAt_left {R : Player → Player → Prop} (f : Player → Player)
    (hrefl : ∀ p, R p p) (hf : ∀ p, R (f p) p) :
    ∀ (l : List Player) (i : Nat), List.Forall₂ R (modifyAt f l i) l := by
  intro l
  induction l with
  | nil => intro i; exact List.Forall₂.nil
  | cons p l ih =>
    intro i
    cases i with
    | zero =>
      exact List.Forall₂.cons (hf p) (List.forall₂_same.mpr (fun x _ => hrefl x))
    | succ n => exact List.Forall₂.cons (hrefl p) (ih n)

/-- C8: feasibility is monotone in exclusions — removing one entry from any
player avoids list never makes a feasible instance infeasible, and adding
an entry to the avoids list of any player never makes an infeasible instance
feasible (equivalently: if the enlarged instance is feasible, so was the
original). -/
theorem feasibility_monotone_in_exclusions (players : List Player) (N : Nat)
    (i : Nat) (x : String) :
    (Feasible players N → Feasible (modifyAt (eraseAvoid x) players i) N) ∧
    (Feasible (modifyAt (addAvoid x) players i) N → Feasible players N) := by
  constructor
  · apply feasible_mono
    apply forall2_modifyAt
    · exact fun p => ⟨rfl, fun t ht => ht⟩
    · intro p
      refine ⟨rfl, fun t ht => ?_⟩
      exact List.mem_of_mem_erase ht
  · apply feasible_mono
    apply forall2_modifyAt_left
    · exact fun p => ⟨rfl, fun t ht => ht⟩
    · intro p
      exact ⟨rfl, fun t ht => List.mem_cons_of_mem x ht⟩

theorem feasibility_monotone_in_exclusions_witness :
    Feasible (modifyAt (eraseAvoid "b") [exAv, exB, exC] 0) 1 ∧
      Feasible [exAv, exB, exC] 1 :=
  ⟨(feasibility_monotone_in_exclusions [exAv, exB, exC] 1 0 "b").1
      ⟨[⟨"a", "c"⟩, ⟨"b", "a"⟩, ⟨"c", "b"⟩], by decide⟩,
   (feasibility_monotone_in_exclusions [exAv, exB, exC] 1 0 "b").2
      ⟨[⟨"a", "c"⟩, ⟨"b", "a"⟩, ⟨"c", "b"⟩], by decide⟩⟩

/-- C6: `calculateOptimalConfig(2, 1)` returns `maxPreferences = 1` and
`maxAvoids = 0`; `calculateOptimalConfig(1, 1)` and
`calculateOptimalConfig(5, 0)` each return zero bounds together with a
reasoning entry explaining the degenerate input. -/
theorem calculateOptimalConfig_boundary :
    (calculateOptimalConfig 2 1).maxPreferences = 1 ∧
    (calculateOptimalConfig 2 1).maxAvoids = 0 ∧
    calculateOptimalConfig 1 1 = ⟨0, 0, ["Need at least 2 players"]⟩ ∧
    calculateOptimalConfig 5 0 = ⟨0, 0, ["Targets per player must be at least 1"]⟩ := by
  refine ⟨rfl, rfl, rfl, rfl⟩

/-- C7: for every `playerCount ≥ 3` and `N ≥ 1`, `calculateOptimalConfig`
returns `maxAvoids = floor(0.8 × max(0, playerCount − 1 − N))` and
`maxPreferences = min(ceil(0.6 × (playerCount − 1)), playerCount − 1)`, and
whenever `max(0, playerCount − 1 − N) = 0` the returned `maxAvoids` is 0. -/
theorem calculateOptimalConfig_formula (c n : Nat) (hc : 3 ≤ c) (hn : 1 ≤ n) :
    (calculateOptimalConfig c n).maxAvoids =
      (⌊(0.8 : ℚ) * ((max 0 ((c : ℤ) - 1 - n) : ℤ) : ℚ)⌋).toNat ∧
    (calculateOptimalConfig c n).maxPreferences =
      min ((⌈(0.6 : ℚ) * ((c : ℚ) - 1)⌉).toNat) (c - 1) ∧
    (max 0 ((c : ℤ) - 1 - n) = 0 → (calculateOptimalConfig c n).maxAvoids = 0) := by
  have hne2 : ¬ ((c == 2) = true) := by
    simp only [beq_iff_eq]
    omega
  have hmz : ((c - 1 - n : Nat) : ℤ) = max 0 ((c : ℤ) - 1 - n) := by
    omega
  have hq1 : ((c - 1 - n : Nat) : ℚ) = ((max 0 ((c : ℤ) - 1 - n) : ℤ) : ℚ) := by
    rw [← hmz]
    push_cast
    ring
  have hprefs : ((c - 1 : Nat) : ℚ) = (c : ℚ) - 1 := by
    push_cast [Nat.cast_sub (by omega : 1 ≤ c)]
    ring
  simp only [calculateOptimalConfig]
  rw [if_neg (by omega : ¬ c < 2), if_neg (by omega : ¬ n < 1), if_neg hne2]
  by_cases hm : ((c - 1 - n : Nat) == 0) = true
  · rw [if_pos hm]
    simp only [beq_iff_eq] at hm
    have hmax0 : max 0 ((c : ℤ) - 1 - n) = 0 := by
      rw [← hmz, hm]
      simp
    refine ⟨?_, ?_, fun _ => rfl⟩
    · rw [hmax0]
      simp
    · rw [hprefs, mul_comm]
  · rw [if_neg hm]
    refine ⟨?_, ?_, ?_⟩
    · rw [hq1, mul_comm _ (0.8 : ℚ)]
    · rw [hprefs, mul_comm]
    · intro hmax
      simp only [beq_iff_eq] at hm
      rw [← hmz] at hmax
      omega

theorem calculateOptimalConfig_formula_witness :
    3 ≤ 10 ∧ 1 ≤ 2 ∧
      ((calculateOptimalConfig 10 2).maxAvoids =
        (⌊(0.8 : ℚ) * ((max 0 ((10 : ℤ) - 1 - 2) : ℤ) : ℚ)⌋).toNat ∧
      (calculateOptimalConfig 10 2).maxPreferences =
        min ((⌈(0.6 : ℚ) * ((10 : ℚ) - 1)⌉).toNat) (10 - 1) ∧
      (max 0 ((10 : ℤ) - 1 - 2) = 0 → (calculateOptimalConfig 10 2).maxAvoids = 0)) :=
  ⟨by norm_num, by norm_num,
    calculateOptimalConfig_formula 10 2 (by norm_num) (by norm_num)⟩

theorem take_min_length {α : Type} (l : List α) (n : Nat) :
    l.take (min n l.length) = l.take n := by
  rcases le_total n l.length with h | h
  · rw [Nat.min_eq_left h]
  · rw [Nat.min_eq_right h, List.take_length, List.take_of_length_le h]

theorem filter_canWrite_eq (players : List Player) (T : Player) :
    players.filter (fun p => !(p.uid == T.uid) && !(p.data.avoids.contains T.uid)) =
      players.filter (fun p => decide (p.uid ≠ T.uid ∧ T.uid ∉ p.data.avoids)) :=
  List.filter_congr (fun p _ => by
    by_cases h1 : p.uid = T.uid <;> by_cases h2 : T.uid ∈ p.data.avoids <;>
      simp [h1, h2])

theorem filter_avoiding_eq (players : List Player) (T : Player) :
    players.filter (fun p => !(p.uid == T.uid) && p.data.avoids.contains T.uid) =
      players.filter (fun p => decide (p.uid ≠ T.uid ∧ T.uid ∈ p.data.avoids)) :=
  List.filter_congr (fun p _ => by
    by_cases h1 : p.uid = T.uid <;> by_cases h2 : T.uid ∈ p.data.avoids <;>
      simp [h1, h2])

theorem filter_validCands_eq (players : List Player) (W : Player) :
    players.filter (fun p => !(p.uid == W.uid) && !(W.data.avoids.contains p.uid)) =
      players.filter (fun p => decide (p.uid ≠ W.uid ∧ p.uid ∉ W.data.avoids)) :=
  List.filter_congr (fun p _ => by
    by_cases h1 : p.uid = W.uid <;> by_cases h2 : p.uid ∈ W.data.avoids <;>
      simp [h1, h2])

theorem filter_avoided_eq (players : List Player) (W : Player) :
    players.filter (fun p => !(p.uid == W.uid) && W.data.avoids.contains p.uid) =
      players.filter (fun p => decide (p.uid ≠ W.uid ∧ p.uid ∈ W.data.avoids)) :=
  List.filter_congr (fun p _ => by
    by_cases h1 : p.uid = W.uid <;> by_cases h2 : p.uid ∈ W.data.avoids <;>
      simp [h1, h2])

theorem filter_neutral_eq (l : List Player) (P : Player) :
    l.filter (fun c => !(P.data.preferences.contains c.uid)) =
      l.filter (fun c => decide (c.uid ∉ P.data.preferences)) :=
  List.filter_congr (fun c _ => by
    by_cases h : c.uid ∈ P.data.preferences <;> simp [h])

/-- C5: the suggestions list of `analyzeMatchmakingConflict` is, triple for
triple, the concatenation in fixed order of the target-starvation pass, the
writer-starvation pass and the near-boundary pass as the specification
describes them; and on the concrete roster where `A` avoids both `B` and
`C` with `N = 1`, the report proposes that `A` remove one of its two
exclusions (the one for `B`). -/
theorem analyzeMatchmakingConflict_passes :
    (∀ (players : List Player) (N : Nat),
      (analyzeMatchmakingConflict players N).suggestions.map suggestionTriple =
        specTargetStarvedPass players N ++ specWriterStarvedPass players N ++
          specNearBoundaryPass players N) ∧
    (analyzeMatchmakingConflict [exA3, exB, exC] 1).suggestions.map suggestionTriple =
      [("A", SuggestionAction.remove_avoid, "B")] := by
  constructor
  · intro players N
    simp only [analyzeMatchmakingConflict, List.map_append]
    congr 1
    · congr 1
      · rw [List.map_flatMap]
        unfold specTargetStarvedPass
        apply List.flatMap_congr
        intro T _
        rw [filter_canWrite_eq players T, filter_avoiding_eq players T]
        by_cases h : (players.filter
            (fun p => decide (p.uid ≠ T.uid ∧ T.uid ∉ p.data.avoids))).length < N
        · rw [if_pos (by omega), if_pos h, take_min_length, List.map_map]
          rfl
        · rw [if_neg (by omega), if_neg h]
          rfl
      · rw [List.map_flatMap]
        unfold specWriterStarvedPass
        apply List.flatMap_congr
        intro W _
        rw [filter_validCands_eq players W, filter_avoided_eq players W]
        by_cases h : (players.filter
            (fun p => decide (p.uid ≠ W.uid ∧ p.uid ∉ W.data.avoids))).length < N
        · rw [if_pos (by omega), if_pos h, take_min_length, List.map_map]
          rfl
        · rw [if_neg (by omega), if_neg h]
          rfl
    · rw [List.map_flatMap]
      unfold specNearBoundaryPass
      apply List.flatMap_congr
      intro P _
      rw [filter_neutral_eq _ P]
      by_cases hb : ((players.filter (fun p =>
          !(p.uid == P.uid) && !(P.data.avoids.contains p.uid))).length == N) = true
      · have hd : (players.filter
            (fun p => decide (p.uid ≠ P.uid ∧ p.uid ∉ P.data.avoids))).length = N := by
          rw [← filter_validCands_eq players P]
          exact beq_iff_eq.mp hb
        rw [if_pos hb, if_pos hd, filter_validCands_eq players P]
        cases (players.filter
            (fun p => decide (p.uid ≠ P.uid ∧ p.uid ∉ P.data.avoids))).filter
            (fun c => decide (c.uid ∉ P.data.preferences)) with
        | nil => rfl
        | cons c rest => rfl
      · have hd : ¬ (players.filter
            (fun p => decide (p.uid ≠ P.uid ∧ p.uid ∉ P.data.avoids))).length = N := by
          intro hh
          apply hb
          apply beq_iff_eq.mpr
          rw [filter_validCands_eq players P]
          exact hh
        rw [if_neg hb, if_neg hd]
        rfl
  · decide

theorem countP_or_disjoint {α : Type} (p q : α → Bool) :
    ∀ l : List α, (∀ x ∈ l, ¬(p x = true ∧ q x = true)) →
      l.countP (fun x => p x || q x) = l.countP p + l.countP q := by
  intro l
  induction l with
  | nil => intro _; rfl
  | cons a l ih =>
    intro hd
    rw [List.countP_cons, List.countP_cons, List.countP_cons,
      ih (fun x hx => hd x (List.mem_cons_of_mem a hx))]
    by_cases hp : p a = true
    · have hq : q a = false := by
        cases hqv : q a with
        | false => rfl
        | true => exact absurd ⟨hp, hqv⟩ (hd a (List.mem_cons_self a l))
      simp [hp, hq]
      omega
    · have hp2 : p a = false := by
        cases hpv : p a with
        | false => rfl
        | true => exact absurd hpv hp
      cases hqv : q a with
      | false => simp [hp2]
      | true => simp [hp2, hqv]; omega

theorem length_eq_countP_two {α : Type} (p q : α → Bool) :
    ∀ l : List α, (∀ x ∈ l, p x = true ∨ q x = true) →
      (∀ x ∈ l, ¬(p x = true ∧ q x = true)) →
      l.length = l.countP p + l.countP q := by
  intro l
  induction l with
  | nil => intro _ _; rfl
  | cons a l ih =>
    intro hcov hd
    simp only [List.length_cons, List.countP_cons]
    rw [ih (fun x hx => hcov x (List.mem_cons_of_mem a hx))
      (fun x hx => hd x (List.mem_cons_of_mem a hx))]
    rcases hcov a (List.mem_cons_self a l) with hp | hq
    · have hq : q a = false := by
        cases hqv : q a with
        | false => rfl
        | true => exact absurd ⟨hp, hqv⟩ (hd a (List.mem_cons_self a l))
      simp [hp, hq]
      omega
    · have hp : p a = false := by
        cases hpv : p a with
        | false => rfl
        | true => exact absurd ⟨hpv, hq⟩ (hd a (List.mem_cons_self a l))
      simp [hp, hq]
      omega

theorem hall_infeasible : ¬ Feasible hallPlayers 1 := by
  rintro ⟨asgs, h1, h2, h3, h4, h5, h6⟩
  have hwA : asgs.countP (fun x => x.writerId == "a") = 1 := h1 hallA (by decide)
  have hwB : asgs.countP (fun x => x.writerId == "b") = 1 := h1 hallB (by decide)
  have hwC : asgs.countP (fun x => x.writerId == "c") = 1 := h1 hallC (by decide)
  have htD : asgs.countP (fun x => x.targetId == "d") = 1 := h2 hallD (by decide)
  have htE : asgs.countP (fun x => x.targetId == "e") = 1 := h2 hallE (by decide)
  have hdisj1 : ∀ x ∈ asgs,
      ¬((x.writerId == "a") = true ∧ (x.writerId == "b") = true) := by
    intro x _ hx
    rcases hx with ⟨ha, hb⟩
    simp only [beq_iff_eq] at ha hb
    rw [ha] at hb
    exact absurd hb (by decide)
  have hdisj2 : ∀ x ∈ asgs,
      ¬((x.writerId == "a" || x.writerId == "b") = true ∧
        (x.writerId == "c") = true) := by
    intro x _ hx
    rcases hx with ⟨hab, hc⟩
    simp only [Bool.or_eq_true, beq_iff_eq] at hab hc
    rcases hab with h | h <;> rw [hc] at h <;> exact absurd h (by decide)
  have hPcount : asgs.countP
      (fun x => (x.writerId == "a" || x.writerId == "b") || x.writerId == "c") = 3 := by
    rw [countP_or_disjoint (fun x => x.writerId == "a" || x.writerId == "b")
      (fun x => x.writerId == "c") asgs hdisj2]
    rw [countP_or_disjoint (fun x => x.writerId == "a")
      (fun x => x.writerId == "b") asgs hdisj1]
    rw [hwA, hwB, hwC]
  have hlen3 : (asgs.filter
      (fun x => (x.writerId == "a" || x.writerId == "b") || x.writerId == "c")).length = 3 := by
    rw [← List.countP_eq_length_filter]
    exact hPcount
  have hsub : ∀ x ∈ asgs.filter
      (fun x => (x.writerId == "a" || x.writerId == "b") || x.writerId == "c"),
      (x.targetId == "d") = true ∨ (x.targetId == "e") = true := by
    intro x hx
    have hxa := List.mem_filter.mp hx
    have hPx := hxa.2
    simp only [Bool.or_eq_true, beq_iff_eq] at hPx
    have hmem := (h5 x hxa.1).2
    have hself := h3 x hxa.1
    simp only [playerIds, hallPlayers, hallA, hallB, hallC, hallD, hallE,
      List.map_cons, List.map_nil, List.mem_cons, List.not_mem_nil, or_false] at hmem
    rcases hPx with (hw | hw) | hw
    · have hav := h6 x hxa.1 hallA (by decide) (by rw [hw]; rfl)
      simp only [hallA, List.mem_cons, List.not_mem_nil, or_false] at hav
      rw [hw] at hself
      rcases hmem with h | h | h | h | h
      · exact absurd h.symm hself
      · exact absurd h (fun hh => hav (Or.inl hh))
      · exact absurd h (fun hh => hav (Or.inr hh))
      · exact Or.inl (beq_iff_eq.mpr h)
      · exact Or.inr (beq_iff_eq.mpr h)
    · have hav := h6 x hxa.1 hallB (by decide) (by rw [hw]; rfl)
      simp only [hallB, List.mem_cons, List.not_mem_nil, or_false] at hav
      rw [hw] at hself
      rcases hmem with h | h | h | h | h
      · exact absurd h (fun hh => hav (Or.inl hh))
      · exact absurd h.symm hself
      · exact absurd h (fun hh => hav (Or.inr hh))
      · exact Or.inl (beq_iff_eq.mpr h)
      · exact Or.inr (beq_iff_eq.mpr h)
    · have hav := h6 x hxa.1 hallC (by decide) (by rw [hw]; rfl)
      simp only [hallC, List.mem_cons, List.not_mem_nil, or_false] at hav
      rw [hw] at hself
      rcases hmem with h | h | h | h | h
      · exact absurd h (fun hh => hav (Or.inl hh))
      · exact absurd h (fun hh => hav (Or.inr hh))
      · exact absurd h.symm hself
      · exact Or.inl (beq_iff_eq.mpr h)
      · exact Or.inr (beq_iff_eq.mpr h)
  have hdisjDE : ∀ x ∈ asgs.filter
      (fun x => (x.writerId == "a" || x.writerId == "b") || x.writerId == "c"),
      ¬((x.targetId == "d") = true ∧ (x.targetId == "e") = true) := by
    intro x _ hx
    rcases hx with ⟨hd, he⟩
    simp only [beq_iff_eq] at hd he
    rw [hd] at he
    exact absurd he (by decide)
  have hsplit := length_eq_countP_two (fun x : Assignment => x.targetId == "d")
    (fun x : Assignment => x.targetId == "e") _ hsub hdisjDE
  have hled : (asgs.filter
      (fun x => (x.writerId == "a" || x.writerId == "b") || x.writerId == "c")).countP
      (fun x => x.targetId == "d") ≤ asgs.countP (fun x => x.targetId == "d") := by
    rw [List.countP_filter]
    apply List.countP_mono_left
    intro x _ hx
    exact ((Bool.and_eq_true _ _).mp hx).1
  have hlee : (asgs.filter
      (fun x => (x.writerId == "a" || x.writerId == "b") || x.writerId == "c")).countP
      (fun x => x.targetId == "e") ≤ asgs.countP (fun x => x.targetId == "e") := by
    rw [List.countP_filter]
    apply List.countP_mono_left
    intro x _ hx
    exact ((Bool.and_eq_true _ _).mp hx).1
  omega

/-- C10: `hasConflict` is true exactly when the suggestions list is
non-empty, and the summary is the fixed no-conflict message on an empty list
and otherwise reports exactly the length of the suggestions list with its
per-action breakdown.  `hasConflict = false` does not certify feasibility
(witnessed by a validator-passing infeasible 5-player roster), and
`hasConflict` can be true on a feasible instance (witnessed by the 2-player
roster, whose near-boundary pass fires). -/
theorem analyzeMatchmakingConflict_hasConflict :
    (∀ (players : List Player) (N : Nat),
      (analyzeMatchmakingConflict players N).hasConflict = true ↔
        (analyzeMatchmakingConflict players N).suggestions ≠ []) ∧
    (∀ (players : List Player) (N : Nat),
      (analyzeMatchmakingConflict players N).summary =
        if ((analyzeMatchmakingConflict players N).suggestions.length == 0) = true then
          "No obvious conflicts detected. The issue might be due to complex constraint interactions. Try lowering N or having players adjust their preferences."
        else
          "Found " ++ toString (analyzeMatchmakingConflict players N).suggestions.length ++
            " suggestion(s): " ++
            toString ((analyzeMatchmakingConflict players N).suggestions.filter
              (fun s => s.action == SuggestionAction.remove_avoid)).length ++
            " remove avoid(s), " ++
            toString ((analyzeMatchmakingConflict players N).suggestions.filter
              (fun s => s.action == SuggestionAction.add_preference)).length ++
            " add preference(s).") ∧
    ((analyzeMatchmakingConflict hallPlayers 1).hasConflict = false ∧
      ¬ Feasible hallPlayers 1) ∧
    ((analyzeMatchmakingConflict [exA, exB] 1).hasConflict = true ∧
      Feasible [exA, exB] 1) := by
  refine ⟨?_, ?_, ⟨by decide, hall_infeasible⟩, ⟨by decide, ?_⟩⟩
  · intro players N
    simp only [analyzeMatchmakingConflict]
    rw [decide_eq_true_iff]
    exact ⟨fun h => List.length_pos.mp h, fun h => List.length_pos.mpr h⟩
  · intro players N
    rfl
  · exact ⟨[⟨"a", "b"⟩, ⟨"b", "a"⟩], by decide⟩

theorem hall_attemptLoop_none (g : Nat → Nat) :
    attemptLoop hallPlayers 1 g (hallPlayers.length * (1 + 1) + 1) 100 0 = none := by
  cases hal : attemptLoop hallPlayers 1 g (hallPlayers.length * (1 + 1) + 1) 100 0 with
  | none => rfl
  | some asgs =>
    exfalso
    apply hall_infeasible
    exact ⟨asgs, attemptLoop_sound hallPlayers 1 g _ (by decide) 100 0 asgs hal⟩

theorem runMatchmaking_failure_reporting_witness :
    runMatchmaking [exA3, exB, exC] 1 g0 =
      (none, [.started 3 1, .errWriterStarved "A" "a" 0]) ∧
    runMatchmaking hallPlayers 1 g0 =
      (none, [.started 5 1, .errNoSolution 100]) :=
  ⟨(runMatchmaking_failure_reporting [exA3, exB, exC] 1 g0).2.2.1 exA3
      (by decide) (by decide) (by decide),
   (runMatchmaking_failure_reporting hallPlayers 1 g0).2.2.2.2
      (by decide) (by decide) (by decide) (by decide) (hall_attemptLoop_none g0)⟩
